import Mathlib

/-! # The JOS kernel monitor (`kern/monitor.c`)

A shallow embedding of the kernel monitor: the three built-in commands
(`mon_help`, `mon_kerninfo`, `mon_backtrace`), the command interpreter
`runcmd` with its in-place tokenizer, and the read-eval loop `monitor`.

Conventions of the embedding.

* Machine words are natural numbers below `2 ^ 32`; every arithmetic step that
  can wrap is reduced modulo `2 ^ 32` explicitly.
* Everything the code does to the outside world is recorded, in program order,
  in a trace of `Event`s: each `cprintf` call with its format string and its
  argument values, each read through the frame pointer, each evaluation of the
  loop test `ebp != NULL`, each call through a function pointer of the command
  table, and the calls to the collaborators `readline` and `print_trapframe`.
* The stack walk of `mon_backtrace` need not terminate (the chain of saved
  frame pointers can be cyclic), so its loop takes a fuel argument; a run that
  is cut off by the fuel has `ret = none` and the trace produced so far.
* A read through a null pointer is undefined behaviour in C. A run that comes
  to such a read stops there: its trace ends with the event of that read, and
  it has `ret = none`, because nothing is known of what the program does next.
-/

namespace Monitor

/-! ## Words -/

/-- Number of values of a 32-bit word. -/
def WORD : Nat := 4294967296

/-- Subtraction of two `uint32_t` values (wraps modulo `2 ^ 32`). -/
def sub32 (a b : Nat) : Nat := (a % WORD + (WORD - b % WORD)) % WORD

/-- The value a 32-bit word has when it is read as an `int`
(two's complement), which is how the `%d` conversion takes its argument. -/
def as_int32 (w : Nat) : Int :=
  if w % WORD < 2147483648 then ((w % WORD : Nat) : Int) else ((w % WORD : Nat) : Int) - 4294967296

/-! ## The trace -/

/-- An argument handed to `cprintf`. -/
inductive Arg where
  -- a 32-bit integer or pointer value (`uint32_t`, `char *` printed by `%08x`)
  | word (w : Nat)
  -- a value of C type `int`
  | int (i : Int)
  -- a C string, given by its characters up to the terminator
  | str (s : List Char)
  deriving DecidableEq, Repr

/-- The function pointers stored in the command table. -/
inductive Handler where
  | mon_help
  | mon_kerninfo
  | mon_backtrace
  deriving DecidableEq, Repr

/-- One observable step of the monitor. -/
inductive Event where
  -- a call `cprintf(fmt, args...)`
  | cprintf (fmt : String) (args : List Arg)
  -- a read of `base[idx]` through a `uint32_t *` whose value is `base`
  | load (base idx : Nat)
  -- an evaluation of the loop condition `ebp != NULL` with `ebp = p`
  | test (p : Nat)
  -- a call `commands[i].func(argc, argv, tf)`; `argv` is given by the strings
  -- its first `argc` entries point to
  | invoke (h : Handler) (argc : Nat) (argv : List (List Char)) (tf : Nat)
  -- a call `print_trapframe(tf)`
  | print_trapframe (tf : Nat)
  -- a call `readline(prompt)`
  | readline (prompt : String)
  deriving DecidableEq, Repr

/-- The outcome of running a piece of the monitor: the events it produced and
the value it returned, `none` when the run did not return: it was cut off by
the fuel, or it came to a read through the null pointer, where its trace ends
because the behaviour of the program is undefined from there on. -/
structure Run where
  trace : List Event
  ret : Option Int
  deriving DecidableEq, Repr

/-- Events `es` followed by the run `r`. -/
def Run.after (es : List Event) (r : Run) : Run := ⟨es ++ r.trace, r.ret⟩

/-! ## The environment -/

/-- The fields of `struct Eipdebuginfo` (`kern/kdebug.h`). -/
structure Eipdebuginfo where
  eip_file : List Char
  eip_line : Int
  eip_fn_name : List Char
  eip_fn_namelen : Int
  eip_fn_addr : Nat
  eip_fn_narg : Int
  deriving DecidableEq, Repr

/-- What the monitor takes from the rest of the kernel: the memory image apart
from the three argument words of a running call of `mon_backtrace` (`call_mem`
below puts them in), the
value `read_ebp()` yields inside `mon_backtrace`, the symbol resolver
`debuginfo_eip` (it fills every field of its result on every call, so it is a
function of the address), the linker symbols and `KERNBASE` used by `mon_kerninfo`, the
macro `ROUNDUP` of `inc/types.h`, the contents the uninitialised array
`argv` of `runcmd` happens to have on entry (a null pointer is `none`, a
pointer into the line buffer is `some` of its offset), and the address of that
array, which is the value of the argument `argv` of every command. -/
structure Env where
  mem : Nat → Nat
  read_ebp : Nat
  debuginfo_eip : Nat → Eipdebuginfo
  _start : Nat
  entry : Nat
  etext : Nat
  edata : Nat
  end_ : Nat
  KERNBASE : Nat
  ROUNDUP : Int → Int → Int
  argv_junk : Nat → Option Nat
  argv_addr : Nat

/-- The word `base[idx]` for `uint32_t *base`: the 32-bit word that the memory
image holds at byte address `base + 4 * idx`. This is the content of memory;
the code may read it only through a non-null `base`, and `mon_backtrace` and
`backtrace_loop` below stop at a read through a null one. -/
def load (mem : Nat → Nat) (base idx : Nat) : Nat :=
  mem ((base + 4 * idx) % WORD) % WORD

/-! ## The command table -/

/-- An entry of the command table (`struct Command`). -/
structure Command where
  name : List Char
  desc : List Char
  func : Handler
  deriving DecidableEq, Repr

/-- The static table `commands[]`. -/
def commands : List Command :=
  [ ⟨"help".toList, "Display this list of commands".toList, Handler.mon_help⟩,
    ⟨"kerninfo".toList, "Display information about the kernel".toList, Handler.mon_kerninfo⟩,
    ⟨"backtrace".toList, "Display a listing of function call frames".toList,
      Handler.mon_backtrace⟩ ]

/-! ## The built-in commands -/

/-- The command `mon_help`: one `cprintf` per table entry, then `return 0`. -/
def mon_help (_argc : Nat) (_argv : List (List Char)) (_tf : Nat) : Run :=
  ⟨commands.map (fun c => Event.cprintf "%s - %s\n" [Arg.str c.name, Arg.str c.desc]), some 0⟩

/-- The command `mon_kerninfo`: seven `cprintf` calls over the linker symbols, then `return 0`.
Pointer minus `KERNBASE` is 32-bit pointer arithmetic; `end - entry` is a
`ptrdiff_t`, and the final division is C division of `int`s. -/
def mon_kerninfo (env : Env) (_argc : Nat) (_argv : List (List Char)) (_tf : Nat) : Run :=
  ⟨[ Event.cprintf "Special kernel symbols:\n" [],
     Event.cprintf "  _start                  %08x (phys)\n" [Arg.word env._start],
     Event.cprintf "  entry  %08x (virt)  %08x (phys)\n"
       [Arg.word env.entry, Arg.word (sub32 env.entry env.KERNBASE)],
     Event.cprintf "  etext  %08x (virt)  %08x (phys)\n"
       [Arg.word env.etext, Arg.word (sub32 env.etext env.KERNBASE)],
     Event.cprintf "  edata  %08x (virt)  %08x (phys)\n"
       [Arg.word env.edata, Arg.word (sub32 env.edata env.KERNBASE)],
     Event.cprintf "  end    %08x (virt)  %08x (phys)\n"
       [Arg.word env.end_, Arg.word (sub32 env.end_ env.KERNBASE)],
     Event.cprintf "Kernel executable memory footprint: %dKB\n"
       [Arg.int (Int.tdiv (env.ROUNDUP (as_int32 (sub32 env.end_ env.entry)) 1024) 1024)] ],
   some 0⟩

/-- The five reads `arg[i] = ebp[i + 2]`, `i = 0 .. 4`, as events. -/
def arg_loads (ebp : Nat) : List Event :=
  (List.range 5).map (fun i => Event.load ebp (i + 2))

/-- The values `ebp[i + 2]`, `i = 0 .. 4`, stored into `arg`. -/
def arg_words (mem : Nat → Nat) (ebp : Nat) : List Nat :=
  (List.range 5).map (fun i => load mem ebp (i + 2))

/-- The memory image during a call `mon_backtrace(argc, argv, tf)`. By the
calling convention drawn above the function in the source (`arg1` at `ebp[2]`)
the frame of the call, which is the one `read_ebp()` points to, holds the three
arguments of the call: `argc` at `ebp[2]`, `argv` at `ebp[3]` and `tf` at
`ebp[4]`. Every other word is that of `env.mem`. -/
def call_mem (env : Env) (argc tf : Nat) : Nat → Nat :=
  fun a =>
    if a = (env.read_ebp % WORD + 8) % WORD then argc % WORD
    else if a = (env.read_ebp % WORD + 12) % WORD then env.argv_addr % WORD
    else if a = (env.read_ebp % WORD + 16) % WORD then tf % WORD
    else env.mem a

/-- The environment during a call `mon_backtrace(argc, argv, tf)`: `env` with
the memory image `call_mem env argc tf`. -/
def Env.in_call (env : Env) (argc tf : Nat) : Env :=
  { env with mem := call_mem env argc tf }

/-- The `while (ebp != NULL)` loop of `mon_backtrace`, entered with the
current values of the variables `ebp`, `eip` and `arg`. One unit of fuel is
spent on each evaluation of the loop condition. After `ebp = ebp[0]` the body
reads `ebp[1]` without a test: when the new `ebp` is null the run stops at
this read, so that the loop is never left through its test; the exit with
`return 0` is kept as the code has it. -/
def backtrace_loop (env : Env) : Nat → Nat → Nat → List Nat → Run
  | 0, _, _, _ => ⟨[], none⟩
  | fuel + 1, ebp, eip, arg =>
    if ebp = 0 then
      ⟨[Event.test ebp], some 0⟩
    else
      let info := env.debuginfo_eip eip
      let ebp1 := load env.mem ebp 0
      let eip1 := load env.mem ebp1 1
      let arg1 := arg_words env.mem ebp1
      Run.after
        [ Event.test ebp,
          Event.cprintf "ebp %08x " [Arg.word ebp],
          Event.cprintf "eip %08x " [Arg.word eip],
          Event.cprintf "args %08x %08x %08x %08x %08x\n" (arg.map Arg.word),
          Event.load ebp 1,
          Event.cprintf "\t %s:%u: %.*s+%d\n"
            [Arg.str info.eip_file, Arg.int info.eip_line, Arg.int info.eip_fn_namelen,
             Arg.str info.eip_fn_name, Arg.word (sub32 (load env.mem ebp 1) info.eip_fn_addr)],
          Event.load ebp 0,
          Event.load ebp1 1 ]
        (if ebp1 = 0 then ⟨[], none⟩
         else Run.after (arg_loads ebp1) (backtrace_loop env fuel ebp1 eip1 arg1))

/-- The command `mon_backtrace`: read `ebp` (a 32-bit register), then `ebp[1]`
and `ebp[2 .. 6]`, print the header, and run the loop, all on the memory image
of this call. The read of `ebp[1]` comes before any test of `ebp`: when `ebp`
is null the run stops at this read. -/
def mon_backtrace (fuel : Nat) (env : Env) (argc : Nat) (_argv : List (List Char))
    (tf : Nat) : Run :=
  let ebp := env.read_ebp % WORD
  let eip := load (call_mem env argc tf) ebp 1
  let arg := arg_words (call_mem env argc tf) ebp
  Run.after [Event.load ebp 1]
    (if ebp = 0 then ⟨[], none⟩
     else
      Run.after (arg_loads ebp ++ [Event.cprintf "Stack backtrace:\n" []])
        (backtrace_loop (env.in_call argc tf) fuel ebp eip arg))

/-! ## The command interpreter -/

/-- The string terminator. -/
def NUL : Char := Char.ofNat 0

/-- The macro `WHITESPACE`, the string "\t\r\n ". -/
def WHITESPACE : List Char := [Char.ofNat 9, Char.ofNat 13, Char.ofNat 10, Char.ofNat 32]

/-- The macro `MAXARGS`. -/
def MAXARGS : Nat := 16

/-- Modelled from the spec: `strchr` of `lib/string.c` is not under src/; this is
whether `strchr(s, c)` is non-null, that is whether `c` occurs in the string `s`,
whose terminator counts as part of it. With `s = WHITESPACE` and `c` not the
terminator it recognises tab, carriage return, newline and space. -/
def strchr (s : List Char) (c : Char) : Bool := decide (c ∈ s) || decide (c = NUL)

/-- Modelled from the spec: `strcmp` of `lib/string.c` is not under src/; the
difference of the first pair of bytes at which the two strings differ, the end
of a string reading as the terminator, and 0 when there is none: lookup is by
exact string match. -/
def strcmp : List Char → List Char → Int
  | [], [] => 0
  | [], b :: _ => 0 - (b.toNat : Int)
  | a :: _, [] => (a.toNat : Int)
  | a :: s, b :: t => if a = b then strcmp s t else (a.toNat : Int) - (b.toNat : Int)

/-- The C string that starts at offset `p` of the buffer `m`: the bytes from
`p` up to the first terminator (the buffer is followed by a terminator). -/
def cstr (m : List Char) (p : Nat) : List Char := (m.drop p).takeWhile (fun c => c != NUL)

/-- The variables of the tokenizing loop of `runcmd`. The line buffer is split
at the pointer `buf`: `pre` holds the bytes before it (as the loop has left
them), `rest` the bytes from it on; past the end of `rest` lies the terminator.
`argv` has `MAXARGS` slots, a null pointer being `none` and a pointer into the
buffer `some` of its offset. -/
structure Tok where
  pre : List Char
  rest : List Char
  argc : Nat
  argv : List (Option Nat)
  deriving DecidableEq, Repr

/-- The byte `*buf`. -/
def Tok.cur (rest : List Char) : Char := rest.headD NUL

/-- The loop `while (*buf && strchr(WHITESPACE, *buf)) *buf++ = 0;`. -/
def gobble : List Char → List Char → List Char × List Char
  | pre, [] => (pre, [])
  | pre, c :: rest =>
    if c != NUL && strchr WHITESPACE c then gobble (pre ++ [NUL]) rest else (pre, c :: rest)

/-- The loop `while (*buf && !strchr(WHITESPACE, *buf)) buf++;`. -/
def scan : List Char → List Char → List Char × List Char
  | pre, [] => (pre, [])
  | pre, c :: rest =>
    if c != NUL && !strchr WHITESPACE c then scan (pre ++ [c]) rest else (pre, c :: rest)

/-- How the tokenizing loop is left: by `return 0` after the too-many-arguments
message, or by `break`. -/
inductive Parse where
  | too_many (st : Tok)
  | done (st : Tok)
  deriving DecidableEq, Repr

/-- The loop `while (1) { ... }` of `runcmd`; one unit of fuel per iteration. -/
def tokenize_loop : Nat → Tok → Option Parse
  | 0, _ => none
  | fuel + 1, st =>
    let g := gobble st.pre st.rest
    if Tok.cur g.2 = NUL then
      some (Parse.done ⟨g.1, g.2, st.argc, st.argv⟩)
    else if st.argc = MAXARGS - 1 then
      some (Parse.too_many ⟨g.1, g.2, st.argc, st.argv⟩)
    else
      let s := scan g.1 g.2
      tokenize_loop fuel ⟨s.1, s.2, st.argc + 1, st.argv.set st.argc (some g.1.length)⟩

/-- The tokenizing part of `runcmd`: `argc = 0; argv[argc] = 0;`, the loop, and
after a `break` the write `argv[argc] = 0`. Every iteration but the last moves
`buf` forward, so the loop is given one unit of fuel per byte and one more. -/
def tokenize (env : Env) (buf : List Char) : Option Parse :=
  match tokenize_loop (buf.length + 1)
      ⟨[], buf, 0, ((List.range MAXARGS).map env.argv_junk).set 0 none⟩ with
  | some (Parse.done st) => some (Parse.done ⟨st.pre, st.rest, st.argc, st.argv.set st.argc none⟩)
  | r => r

/-- The line buffer as the loop has left it. -/
def Tok.buffer (st : Tok) : List Char := st.pre ++ st.rest

/-- The strings `argv[0]`, ..., `argv[argc - 1]` point to. -/
def Tok.strings (st : Tok) : List (List Char) :=
  (st.argv.take st.argc).map (fun a =>
    match a with
    | some p => cstr st.buffer p
    | none => [])

/-- The function a pointer of the command table points to, applied to
`argc`, `argv` and `tf`. -/
def apply_handler (fuel : Nat) (env : Env) (h : Handler) (argc : Nat) (argv : List (List Char))
    (tf : Nat) : Run :=
  match h with
  | Handler.mon_help => mon_help argc argv tf
  | Handler.mon_kerninfo => mon_kerninfo env argc argv tf
  | Handler.mon_backtrace => mon_backtrace fuel env argc argv tf

/-- A call `commands[i].func(argc, argv, tf)` through the function pointer `h`. -/
def call (fuel : Nat) (env : Env) (h : Handler) (argc : Nat) (argv : List (List Char))
    (tf : Nat) : Run :=
  Run.after [Event.invoke h argc argv tf] (apply_handler fuel env h argc argv tf)

/-- The loop over the command table in `runcmd`, with the statements after it:
the first entry whose name `strcmp` finds equal to `argv[0]` is called and its
result returned; with no such entry the unknown-command message is printed. -/
def lookup (fuel : Nat) (env : Env) (argc : Nat) (argv : List (List Char)) (tf : Nat) :
    List Command → Run
  | [] => ⟨[Event.cprintf "Unknown command '%s'\n" [Arg.str (argv.headD [])]], some 0⟩
  | c :: cs =>
    if strcmp (argv.headD []) c.name = 0 then call fuel env c.func argc argv tf
    else lookup fuel env argc argv tf cs

/-- The command interpreter `runcmd(buf, tf)`: tokenize the line, then look the
first token up in the command table. -/
def runcmd (fuel : Nat) (env : Env) (buf : List Char) (tf : Nat) : Run :=
  match tokenize env buf with
  | none => ⟨[], none⟩
  | some (Parse.too_many _) =>
    ⟨[Event.cprintf "Too many arguments (max %d)\n" [Arg.int (Int.ofNat MAXARGS)]], some 0⟩
  | some (Parse.done st) =>
    if st.argc = 0 then ⟨[], some 0⟩
    else lookup fuel env st.argc st.strings tf commands

/-! ## The read-eval loop -/

/-- The loop `while (1) { buf = readline("K> "); ... }` of `monitor`, run
against a script of results of `readline` (`none` is `NULL`) and a command
interpreter `run`. When the script is used up the run stops inside `readline`
(`ret = none`); `ret = some 0` says that the `break` was reached. -/
def monitor_loop (run : List Char → Run) : List (Option (List Char)) → Run
  | [] => ⟨[Event.readline "K> "], none⟩
  | none :: more => Run.after [Event.readline "K> "] (monitor_loop run more)
  | some buf :: more =>
    match (run buf).ret with
    | none => Run.after [Event.readline "K> "] (run buf)
    | some s =>
      if s < 0 then ⟨Event.readline "K> " :: (run buf).trace, some 0⟩
      else Run.after (Event.readline "K> " :: (run buf).trace) (monitor_loop run more)

/-- The function `monitor(tf)`: the trap frame is printed when there is one, then the two
banner lines, then the loop over `runcmd`. -/
def monitor (fuel : Nat) (env : Env) (tf : Nat) (script : List (Option (List Char))) : Run :=
  Run.after
    ((if tf ≠ 0 then [Event.print_trapframe tf] else []) ++
      [Event.cprintf "Welcome to the JOS kernel monitor!\n" [],
       Event.cprintf "Type 'help' for a list of commands.\n" []])
    (monitor_loop (fun buf => runcmd fuel env buf tf) script)

/-! ## Notions of the specification -/

/-- The input line held by a buffer: its bytes before the first terminator. -/
def line (buf : List Char) : List Char := buf.takeWhile (fun c => c != NUL)

/-- The whitespace characters: tab, carriage return, newline, space. -/
def isWhite (c : Char) : Bool :=
  c = Char.ofNat 9 || c = Char.ofNat 13 || c = Char.ofNat 10 || c = Char.ofNat 32

/-- The maximal runs of non-whitespace characters of a line, left to right:
the pieces between whitespace characters that are not empty. -/
def runs (l : List Char) : List (List Char) :=
  (l.splitOnP isWhite).filter (fun t => !t.isEmpty)

/-- The console output of a trace: its `cprintf` calls, in order. -/
def prints (tr : List Event) : List Event :=
  tr.filter (fun e =>
    match e with
    | Event.cprintf _ _ => true
    | _ => false)

/-- One entry of a backtrace as it is read off the console output: the value
on the `ebp` line, the value on the `eip` line, the values on the `args` line,
and the five values of the symbol line. -/
structure Frame where
  frame_pointer : Nat
  return_address : Nat
  arguments : List Arg
  file : List Char
  lineno : Int
  namelen : Int
  fn_name : List Char
  offset : Nat
  deriving DecidableEq, Repr

/-- The backtrace entries of a console output: every group of four consecutive
calls that print an `ebp` value, an `eip` value, an `args` line and a symbol
line. -/
def frames_of : List Event → List Frame
  | Event.cprintf "ebp %08x " [Arg.word fp] :: Event.cprintf "eip %08x " [Arg.word ra] ::
      Event.cprintf "args %08x %08x %08x %08x %08x\n" args ::
      Event.cprintf "\t %s:%u: %.*s+%d\n"
        [Arg.str file, Arg.int ln, Arg.int len, Arg.str name, Arg.word off] :: rest =>
    ⟨fp, ra, args, file, ln, len, name, off⟩ :: frames_of rest
  | _ :: rest => frames_of rest
  | [] => []

/-- The chain of saved frame pointers: the pointer following `fp` is the word
stored at `fp`. -/
def next_fp (mem : Nat → Nat) (fp : Nat) : Nat := load mem fp 0

/-- The frame pointers met by at most `n` evaluations of the loop test when
the chain is followed from `fp` until it is null. -/
def walk (mem : Nat → Nat) : Nat → Nat → List Nat
  | 0, _ => []
  | n + 1, fp => if fp = 0 then [] else fp :: walk mem n (next_fp mem fp)

/-- The backtrace entry whose fields are read from memory at `fp`: return
address `fp[1]`, arguments `fp[2 .. 6]`, and the resolver's data for that
return address with the offset from the start of the function. -/
def frame_at (env : Env) (fp : Nat) : Frame :=
  let info := env.debuginfo_eip (load env.mem fp 1)
  ⟨fp, load env.mem fp 1, (arg_words env.mem fp).map Arg.word, info.eip_file, info.eip_line,
    info.eip_fn_namelen, info.eip_fn_name, sub32 (load env.mem fp 1) info.eip_fn_addr⟩

/-- Whether every read through a pointer in the trace comes after a loop test
that found this very pointer non-null; `ok` lists the pointers validated so
far. -/
def derefs_validated : List Nat → List Event → Bool
  | _, [] => true
  | ok, Event.test p :: tr => derefs_validated (if p = 0 then ok else p :: ok) tr
  | ok, Event.load b _ :: tr => decide (b ∈ ok) && derefs_validated ok tr
  | ok, _ :: tr => derefs_validated ok tr

/-- The line buffer after tokenizing, as the specification describes it: in the
line (the bytes before the first terminator) every whitespace byte is replaced
by the terminator; no other byte changes. -/
def zap (buf : List Char) : List Char :=
  (line buf).map (fun c => if isWhite c then NUL else c) ++ buf.drop (line buf).length

/-- A byte that belongs to a token: neither the terminator nor whitespace. -/
def isTok (c : Char) : Bool := c != NUL && !isWhite c

/-- The calls through the command table that a trace records. -/
def invokes (tr : List Event) : List Event :=
  tr.filter (fun e =>
    match e with
    | Event.invoke _ _ _ _ => true
    | _ => false)

/-- An event that belongs to `runcmd` itself rather than to a command: a call
through the command table, or one of the two messages of `runcmd`. -/
def of_runcmd (e : Event) : Bool :=
  match e with
  | Event.invoke _ _ _ _ => true
  | Event.cprintf fmt _ =>
    fmt = "Too many arguments (max %d)\n" || fmt = "Unknown command '%s'\n"
  | _ => false

/-- Modelled from the spec: the formatter behind `cprintf` (`lib/printfmt.c`) is
not under src/. This is its `%s` conversion: each `%s` of the format prints the
next string argument, and every other character of the format is printed as
it is. -/
def format_s : List Char → List Arg → List Char
  | c :: d :: rest, args =>
    if c = Char.ofNat 37 ∧ d = Char.ofNat 115 then
      (match args with
        | Arg.str s :: _ => s
        | _ => []) ++ format_s rest args.tail
    else c :: format_s (d :: rest) args
  | [c], _ => [c]
  | [], _ => []

/-- The text a `cprintf` call prints when its format has no conversion other
than `%s`. -/
def printed_text (e : Event) : List Char :=
  match e with
  | Event.cprintf fmt args => format_s fmt.toList args
  | _ => []

/-- The variables of the tokenizing loop when it is entered: after
`argc = 0; argv[argc] = 0;`. -/
def tok_init (env : Env) (buf : List Char) : Tok :=
  ⟨[], buf, 0, ((List.range MAXARGS).map env.argv_junk).set 0 none⟩

/-- One pass through the body of the tokenizing loop of `runcmd`: the loop is
left (`Sum.inl`), or it goes on with new values of its variables (`Sum.inr`)
after the write `argv[argc++] = buf`. -/
def tok_step (st : Tok) : Parse ⊕ Tok :=
  let g := gobble st.pre st.rest
  if Tok.cur g.2 = NUL then
    Sum.inl (Parse.done ⟨g.1, g.2, st.argc, st.argv⟩)
  else if st.argc = MAXARGS - 1 then
    Sum.inl (Parse.too_many ⟨g.1, g.2, st.argc, st.argv⟩)
  else
    let s := scan g.1 g.2
    Sum.inr ⟨s.1, s.2, st.argc + 1, st.argv.set st.argc (some g.1.length)⟩

/-- The values the variables of the tokenizing loop have each time its body is
entered, in order. -/
def loop_states : Nat → Tok → List Tok
  | 0, _ => []
  | fuel + 1, st =>
    match tok_step st with
    | Sum.inl _ => [st]
    | Sum.inr st1 => st :: loop_states fuel st1

/-- The indices of `argv` that the tokenizing loop writes, in order: a pass that
stores a token pointer writes `argv[argc]`. -/
def loop_writes : Nat → Tok → List Nat
  | 0, _ => []
  | fuel + 1, st =>
    match tok_step st with
    | Sum.inl _ => []
    | Sum.inr st1 => st.argc :: loop_writes fuel st1

/-- The indices of `argv` that `runcmd` writes, in order: index 0 by the
initial `argv[argc] = 0`, the writes of the loop, and after a `break` the
index `argc` of the final `argv[argc] = 0`. -/
def argv_writes (env : Env) (buf : List Char) : List Nat :=
  0 :: loop_writes (buf.length + 1) (tok_init env buf) ++
    (match tokenize env buf with
      | some (Parse.done st) => [st.argc]
      | _ => [])

/-! ## Sample inputs -/

/-- A sample environment. The stack holds a chain of two frames: the frame at
4096, which is that of `mon_backtrace`, has the saved frame pointer 8192 and
the return address 1048676, and above the three arguments of the call the
words 4 and 5; the frame at 8192 has a null saved frame pointer and the return
address 1048700. The array `argv` of `runcmd` is at 8100. The resolver places
every address in a function that starts at 1048576. -/
def sample_env : Env where
  mem := fun a =>
    if a = 4096 then 8192 else if a = 4100 then 1048676 else if a = 4116 then 4
    else if a = 4120 then 5 else if a = 8196 then 1048700 else 0
  read_ebp := 4096
  debuginfo_eip := fun _ =>
    ⟨"kern/monitor.c".toList, 143, "monitor:F(0,1)".toList, 7, 1048576, 1⟩
  _start := 1048588
  entry := 4027580428
  etext := 4027587137
  edata := 4027654912
  end_ := 4027657536
  KERNBASE := 4026531840
  ROUNDUP := fun a n => (a + n - 1) / n * n
  argv_junk := fun _ => none
  argv_addr := 8100

/-- A sample environment whose stack holds a single frame: the word at the
initial frame pointer 4096 is null, as is the rest of memory. -/
def one_frame_env : Env where
  mem := fun _ => 0
  read_ebp := 4096
  debuginfo_eip := fun _ => ⟨[], 0, [], 0, 0, 0⟩
  _start := 0
  entry := 0
  etext := 0
  edata := 0
  end_ := 0
  KERNBASE := 0
  ROUNDUP := fun a _ => a
  argv_junk := fun _ => none
  argv_addr := 8100

/-- A line of exactly sixteen tokens. -/
def sixteen_tokens : List Char := "help 1 2 3 4 5 6 7 8 9 10 11 12 13 14 15".toList

/-- A command interpreter that prints nothing and returns the status -2. -/
def status_minus_two : List Char → Run := fun _ => ⟨[], some (-2)⟩

/-- A sample environment whose stack holds a chain of three frames, at 4096,
8192 and 12288; the resolver knows two functions, `monitor` from 1048576 on and
`i386_init` from 1052672 on, and stores their names followed by the rest of
the symbol string. -/
def three_frame_env : Env where
  mem := fun a =>
    if a = 4096 then 8192 else if a = 4100 then 1048682
    else if a = 8192 then 12288 else if a = 8196 then 1048700 else if a = 8200 then 7
    else if a = 12292 then 1052690 else 0
  read_ebp := 4096
  debuginfo_eip := fun a =>
    if a < 1052672 then ⟨"kern/monitor.c".toList, 143, "monitor:F(0,1)".toList, 7, 1048576, 1⟩
    else ⟨"kern/init.c".toList, 24, "i386_init:F(0,1)".toList, 9, 1052672, 0⟩
  _start := 1048588
  entry := 4027580428
  etext := 4027587137
  edata := 4027654912
  end_ := 4027657536
  KERNBASE := 4026531840
  ROUNDUP := fun a n => (a + n - 1) / n * n
  argv_junk := fun _ => none
  argv_addr := 8100

/-- A sample environment whose stack is cyclic: the frame at 4096 has itself
as its saved frame pointer. -/
def cyclic_env : Env where
  mem := fun a => if a = 4096 then 4096 else 0
  read_ebp := 4096
  debuginfo_eip := fun _ => ⟨[], 0, [], 0, 0, 0⟩
  _start := 0
  entry := 0
  etext := 0
  edata := 0
  end_ := 0
  KERNBASE := 0
  ROUNDUP := fun a _ => a
  argv_junk := fun _ => none
  argv_addr := 8100

/-- A sample line: `ls`, two blanks, `-l`, a tab. -/
def ls_line : List Char := "ls  -l".toList ++ [Char.ofNat 9]

/-- The variables of the tokenizing loop after the sample line `ls_line`: the
blanks and the tab are terminators now, `argv[0]` and `argv[1]` point to the
two tokens at the offsets 0 and 4, and `argv[2]` is null. -/
def ls_tok : Tok :=
  ⟨"ls".toList ++ [NUL, NUL] ++ "-l".toList ++ [NUL], [], 2,
    [some 0, some 4, none, none, none, none, none, none, none, none, none, none, none, none,
      none, none]⟩

/-! ## The stack walk -/

theorem prints_append (a b : List Event) : prints (a ++ b) = prints a ++ prints b := by
  simp [prints]

theorem prints_arg_loads (ebp : Nat) : prints (arg_loads ebp) = [] := by
  simp [prints, arg_loads, List.filter_eq_nil_iff]

theorem load_lt (mem : Nat → Nat) (b i : Nat) : load mem b i < WORD := by
  unfold load
  exact Nat.mod_lt _ (by decide)

theorem walk_null (mem : Nat → Nat) (n : Nat) : walk mem n 0 = [] := by
  cases n <;> simp [walk]

/-- Loop invariant of the walk: entered with `eip` and `arg` holding the words
read through the current `ebp`, the loop prints the entries of the frames met. -/
theorem frames_backtrace_loop (env : Env) : ∀ (fuel ebp : Nat),
    frames_of (prints (backtrace_loop env fuel ebp (load env.mem ebp 1)
      (arg_words env.mem ebp)).trace) = (walk env.mem fuel ebp).map (frame_at env) := by
  intro fuel
  induction fuel with
  | zero => intro ebp; simp [backtrace_loop, walk, prints, frames_of]
  | succ n ih =>
    intro ebp
    by_cases h : ebp = 0
    · simp [backtrace_loop, walk, h, prints, frames_of]
    · have ih1 := ih (load env.mem ebp 0)
      by_cases h1 : load env.mem ebp 0 = 0
      · simp only [backtrace_loop, walk, h, h1, if_false, if_true, Run.after, List.append_nil,
          List.map_cons, next_fp, walk_null, List.map_nil]
        simp only [prints, List.filter_cons, List.filter_nil]
        simp [frames_of, frame_at]
      · simp only [backtrace_loop, walk, h, h1, if_false, Run.after, prints_append,
          prints_arg_loads, List.nil_append, List.map_cons, next_fp]
        simp only [prints, List.filter_cons, List.filter_nil]
        simp only [prints] at ih1
        simp [frames_of, ih1, frame_at]

theorem frames_mon_backtrace (fuel : Nat) (env : Env) (argc : Nat) (argv : List (List Char))
    (tf : Nat) :
    frames_of (prints (mon_backtrace fuel env argc argv tf).trace) =
      (walk (call_mem env argc tf) fuel (env.read_ebp % WORD)).map
        (frame_at (env.in_call argc tf)) := by
  by_cases h0 : env.read_ebp % WORD = 0
  · simp [mon_backtrace, Run.after, h0, walk_null, prints, frames_of]
  · have h := frames_backtrace_loop (env.in_call argc tf) fuel (env.read_ebp % WORD)
    have hm : (env.in_call argc tf).mem = call_mem env argc tf := rfl
    rw [hm] at h
    simp only [mon_backtrace, Run.after, h0, if_false, prints_append, prints_arg_loads,
      List.nil_append]
    simp only [prints, List.filter_cons, List.filter_nil]
    simp only [prints] at h
    simp [frames_of, h]

theorem walk_chain (mem : Nat → Nat) : ∀ (n fp : Nat),
    List.Chain' (fun a b => b = next_fp mem a) (walk mem n fp) := by
  intro n
  induction n with
  | zero => intro fp; simp [walk]
  | succ n ih =>
    intro fp
    by_cases h : fp = 0
    · simp [walk, h]
    · simp only [walk, h, if_false]
      rw [List.chain'_cons']
      refine ⟨?_, ih _⟩
      intro b hb
      cases n with
      | zero => simp [walk] at hb
      | succ m =>
        by_cases h1 : next_fp mem fp = 0
        · simp [walk, h1] at hb
        · simp [walk, h1] at hb
          exact hb.symm

theorem walk_head (mem : Nat → Nat) (n fp : Nat) :
    (walk mem n fp).head? = if n = 0 ∨ fp = 0 then none else some fp := by
  cases n with
  | zero => simp [walk]
  | succ m =>
    by_cases h : fp = 0
    · simp [walk, h]
    · simp [walk, h]

/-- The loop prints four lines for each frame it meets and nothing else. -/
theorem prints_backtrace_loop_length (env : Env) : ∀ (fuel ebp eip : Nat) (arg : List Nat),
    (prints (backtrace_loop env fuel ebp eip arg).trace).length =
      4 * (walk env.mem fuel ebp).length := by
  intro fuel
  induction fuel with
  | zero => intro ebp eip arg; simp [backtrace_loop, walk, prints]
  | succ n ih =>
    intro ebp eip arg
    by_cases h : ebp = 0
    · simp [backtrace_loop, walk, h, prints]
    · have ih1 := ih (load env.mem ebp 0) (load env.mem (load env.mem ebp 0) 1)
        (arg_words env.mem (load env.mem ebp 0))
      by_cases h1 : load env.mem ebp 0 = 0
      · simp only [backtrace_loop, walk, h, h1, if_false, if_true, Run.after, List.append_nil,
          next_fp, walk_null]
        simp [prints]
      · simp only [backtrace_loop, walk, h, h1, if_false, Run.after, prints_append,
          prints_arg_loads, List.nil_append, next_fp, List.length_append, ih1, List.length_cons]
        simp only [prints, List.filter_cons, List.filter_nil]
        simp
        omega

/-- The loop never returns when it is entered with a non-null `ebp`: it stops
at a read through null or runs out of fuel. -/
theorem backtrace_loop_ret (env : Env) : ∀ (fuel ebp eip : Nat) (arg : List Nat), ebp ≠ 0 →
    (backtrace_loop env fuel ebp eip arg).ret = none := by
  intro fuel
  induction fuel with
  | zero => intro ebp eip arg _; rfl
  | succ n ih =>
    intro ebp eip arg h
    by_cases h1 : load env.mem ebp 0 = 0
    · simp [backtrace_loop, h, h1, Run.after]
    · simp only [backtrace_loop, h, h1, if_false, Run.after]
      exact ih _ _ _ h1

theorem mon_backtrace_ret (fuel : Nat) (env : Env) (argc : Nat) (argv : List (List Char))
    (tf : Nat) : (mon_backtrace fuel env argc argv tf).ret = none := by
  by_cases h0 : env.read_ebp % WORD = 0
  · simp [mon_backtrace, Run.after, h0]
  · simp only [mon_backtrace, Run.after, h0, if_false]
    exact backtrace_loop_ret _ _ _ _ _ h0

/-- A chain whose member `K + 1` is the first null one is walked in full by
`K + 1` loop tests or more: the loop meets the `K + 1` frames, and its run ends
with the read of `ebp[1]` through the null pointer, without a test of that
pointer. -/
theorem walk_of_chain (env : Env) : ∀ (K fuel fp eip : Nat) (arg : List Nat),
    (∀ j, j < K + 1 → (next_fp env.mem)^[j] fp ≠ 0) → (next_fp env.mem)^[K + 1] fp = 0 →
    K < fuel →
    walk env.mem fuel fp = (List.range (K + 1)).map (fun j => (next_fp env.mem)^[j] fp) ∧
    (backtrace_loop env fuel fp eip arg).trace.getLast? = some (Event.load 0 1) ∧
    Event.test 0 ∉ (backtrace_loop env fuel fp eip arg).trace := by
  intro K
  induction K with
  | zero =>
    intro fuel fp eip arg hnz hz hf
    obtain ⟨m, rfl⟩ : ∃ m, fuel = m + 1 := ⟨fuel - 1, by omega⟩
    have h0 : fp ≠ 0 := by simpa using hnz 0 (by omega)
    have h1 : load env.mem fp 0 = 0 := by simpa [next_fp] using hz
    refine ⟨?_, ?_, ?_⟩
    · simp [walk, h0, next_fp, h1, walk_null]
    · simp [backtrace_loop, h0, h1, Run.after]
    · simp only [backtrace_loop, h0, h1, if_false, if_true, Run.after, List.append_nil]
      simp [Ne.symm h0]
  | succ K ih =>
    intro fuel fp eip arg hnz hz hf
    obtain ⟨m, rfl⟩ : ∃ m, fuel = m + 1 := ⟨fuel - 1, by omega⟩
    have h0 : fp ≠ 0 := by simpa using hnz 0 (by omega)
    have h1 : load env.mem fp 0 ≠ 0 := by simpa [next_fp] using hnz 1 (by omega)
    have hnz1 : ∀ j, j < K + 1 → (next_fp env.mem)^[j] (next_fp env.mem fp) ≠ 0 := by
      intro j hj
      have := hnz (j + 1) (by omega)
      simpa [Function.iterate_succ_apply] using this
    have hz1 : (next_fp env.mem)^[K + 1] (next_fp env.mem fp) = 0 := by
      simpa [Function.iterate_succ_apply] using hz
    have ih1 := ih m (next_fp env.mem fp) (load env.mem (next_fp env.mem fp) 1)
      (arg_words env.mem (next_fp env.mem fp)) hnz1 hz1 (by omega)
    have hne : (backtrace_loop env m (next_fp env.mem fp) (load env.mem (next_fp env.mem fp) 1)
        (arg_words env.mem (next_fp env.mem fp))).trace ≠ [] := by
      intro he
      rw [he] at ih1
      simp at ih1
    refine ⟨?_, ?_, ?_⟩
    · simp only [walk, h0, if_false, ih1.1]
      rw [List.range_succ_eq_map (K + 1)]
      simp [Function.comp_def, Function.iterate_succ_apply]
    · simp only [backtrace_loop, h0, h1, if_false, Run.after]
      simp only [next_fp] at ih1 hne
      rw [List.getLast?_append_of_ne_nil _ (by intro he; exact hne (List.append_eq_nil.1 he).2),
        List.getLast?_append_of_ne_nil _ hne]
      exact ih1.2.1
    · simp only [backtrace_loop, h0, h1, if_false, Run.after]
      simp only [next_fp] at ih1
      have h2 := ih1.2.2
      simp [arg_loads, h2, Ne.symm h0]

/-- When the run of the loop has ended with the read through the null pointer,
the last frame it met has a null saved frame pointer. -/
theorem walk_last (env : Env) : ∀ (fuel fp eip : Nat) (arg : List Nat) (p : Nat),
    (backtrace_loop env fuel fp eip arg).trace.getLast? = some (Event.load 0 1) →
    (walk env.mem fuel fp).getLast? = some p → next_fp env.mem p = 0 := by
  intro fuel
  induction fuel with
  | zero => intro fp eip arg p h; simp [backtrace_loop] at h
  | succ n ih =>
    intro fp eip arg p hr hl
    by_cases h : fp = 0
    · simp [walk, h] at hl
    · by_cases h1 : load env.mem fp 0 = 0
      · simp [walk, h, next_fp, h1, walk_null] at hl
        subst hl
        exact h1
      · simp only [backtrace_loop, h, h1, if_false, Run.after] at hr
        simp only [walk, h, if_false] at hl
        cases n with
        | zero =>
          have hr5 : List.range 5 = [0, 1, 2, 3, 4] := by decide
          simp [backtrace_loop, arg_loads, hr5] at hr
        | succ m =>
          have hne : (backtrace_loop env (m + 1) (load env.mem fp 0)
              (load env.mem (load env.mem fp 0) 1) (arg_words env.mem (load env.mem fp 0))).trace
              ≠ [] := by
            simp [backtrace_loop, h1, Run.after]
          rw [List.getLast?_append_of_ne_nil _ (by intro he; exact hne (List.append_eq_nil.1 he).2),
            List.getLast?_append_of_ne_nil _ hne] at hr
          have hw : walk env.mem (m + 1) (next_fp env.mem fp) =
              next_fp env.mem fp :: walk env.mem m (next_fp env.mem (next_fp env.mem fp)) := by
            have : next_fp env.mem fp ≠ 0 := h1
            simp [walk, this]
          rw [hw, List.getLast?_cons_cons] at hl
          rw [← hw] at hl
          exact ih _ _ _ p hr hl

theorem as_int32_sub32 (R S : Nat) :
    as_int32 (sub32 R S) = Int.bmod ((R : Int) - (S : Int)) 4294967296 := by
  unfold as_int32 sub32 WORD
  rw [Int.bmod_def]
  have h1 : (((R % 4294967296 + (4294967296 - S % 4294967296)) % 4294967296 % 4294967296 : Nat) : Int)
      = ((R : Int) - (S : Int)) % ((4294967296 : Nat) : Int) := by
    omega
  rw [h1]
  have h2 : (((R % 4294967296 + (4294967296 - S % 4294967296)) % 4294967296 % 4294967296 : Nat) < 2147483648)
      ↔ (((R : Int) - (S : Int)) % ((4294967296 : Nat) : Int) < (((4294967296 : Nat) : Int) + 1) / 2) := by
    omega
  simp only [h2]
  rfl

theorem sub32_of_le (R S : Nat) (hR : R < WORD) (h : S ≤ R) : sub32 R S = R - S := by
  unfold sub32
  unfold WORD at *
  omega

theorem derefs_unvalidated (fuel : Nat) (env : Env) (argc : Nat) (argv : List (List Char))
    (tf : Nat) : derefs_validated [] (mon_backtrace fuel env argc argv tf).trace = false := by
  simp [mon_backtrace, Run.after, derefs_validated]

/-- The words `ebp[2]`, `ebp[3]` and `ebp[4]` of the frame of the call are the
arguments `argc`, `argv` and `tf` of the call. -/
theorem call_mem_args (env : Env) (argc tf : Nat) :
    load (call_mem env argc tf) (env.read_ebp % WORD) 2 = argc % WORD ∧
    load (call_mem env argc tf) (env.read_ebp % WORD) 3 = env.argv_addr % WORD ∧
    load (call_mem env argc tf) (env.read_ebp % WORD) 4 = tf % WORD := by
  have hb : env.read_ebp % WORD < WORD := Nat.mod_lt _ (by decide)
  unfold WORD at hb
  refine ⟨?_, ?_, ?_⟩
  · simp [load, call_mem, WORD]
  · have h1 : (env.read_ebp + 12) % 4294967296 ≠ (env.read_ebp + 8) % 4294967296 := by omega
    simp [load, call_mem, WORD, h1]
  · have h1 : (env.read_ebp + 16) % 4294967296 ≠ (env.read_ebp + 8) % 4294967296 := by omega
    have h2 : (env.read_ebp + 16) % 4294967296 ≠ (env.read_ebp + 12) % 4294967296 := by omega
    simp [load, call_mem, WORD, h1, h2]

/-! ### The claims about the stack walk -/

/-- Claim C1, which the code breaks where the claim has the walk stop and
return 0. When the chain of saved frame pointers that starts at the initial
frame pointer has its first `K` members non-null and its member `K` null, the
backtrace `mon_backtrace` has printed when its run ends (given `K` loop tests
of fuel) has exactly `K` entries, whose frame pointers are the first `K`
members of the chain in callee-to-caller order, and none when `K = 0`. But the
run does not end by `return 0`: it ends at the read of `ebp[1]` through the
null member of the chain, which no loop test has examined, and the behaviour of
the program is undefined from there on. With `K = 0` this read is the first
thing the run does, before the header is printed. -/
theorem mon_backtrace_walks_chain (env : Env) (K fuel argc : Nat) (argv : List (List Char))
    (tf : Nat)
    (hnz : ∀ j, j < K → (next_fp (call_mem env argc tf))^[j] (env.read_ebp % WORD) ≠ 0)
    (hz : (next_fp (call_mem env argc tf))^[K] (env.read_ebp % WORD) = 0) (hfuel : K ≤ fuel) :
    (frames_of (prints (mon_backtrace fuel env argc argv tf).trace)).map Frame.frame_pointer =
      (List.range K).map (fun j => (next_fp (call_mem env argc tf))^[j] (env.read_ebp % WORD)) ∧
    (frames_of (prints (mon_backtrace fuel env argc argv tf).trace)).length = K ∧
    (mon_backtrace fuel env argc argv tf).ret = none ∧
    (mon_backtrace fuel env argc argv tf).trace.getLast? = some (Event.load 0 1) ∧
    Event.test 0 ∉ (mon_backtrace fuel env argc argv tf).trace ∧
    (K = 0 → (mon_backtrace fuel env argc argv tf).trace = [Event.load 0 1]) := by
  cases K with
  | zero =>
    have h0 : env.read_ebp % WORD = 0 := by simpa using hz
    rw [frames_mon_backtrace]
    simp [mon_backtrace, Run.after, h0, walk_null]
  | succ K =>
    have h0 : env.read_ebp % WORD ≠ 0 := by simpa using hnz 0 (by omega)
    have hm : (env.in_call argc tf).mem = call_mem env argc tf := rfl
    have hw := walk_of_chain (env.in_call argc tf) K fuel (env.read_ebp % WORD)
      (load (call_mem env argc tf) (env.read_ebp % WORD) 1)
      (arg_words (call_mem env argc tf) (env.read_ebp % WORD)) (by rw [hm]; exact hnz)
      (by rw [hm]; exact hz) (by omega)
    rw [hm] at hw
    have hne : (backtrace_loop (env.in_call argc tf) fuel (env.read_ebp % WORD)
        (load (call_mem env argc tf) (env.read_ebp % WORD) 1)
        (arg_words (call_mem env argc tf) (env.read_ebp % WORD))).trace ≠ [] := by
      intro he
      rw [he] at hw
      simp at hw
    refine ⟨?_, ?_, mon_backtrace_ret _ _ _ _ _, ?_, ?_, ?_⟩
    · rw [frames_mon_backtrace, hw.1]
      simp [frame_at, Function.comp_def]
    · rw [frames_mon_backtrace, hw.1]
      simp
    · simp only [mon_backtrace, Run.after, h0, if_false]
      rw [List.getLast?_append_of_ne_nil _ (by intro he; exact hne (List.append_eq_nil.1 he).2),
        List.getLast?_append_of_ne_nil _ hne]
      exact hw.2.1
    · simp only [mon_backtrace, Run.after, h0, if_false]
      have h2 := hw.2.2
      simp [arg_loads, h2]
    · intro hK
      omega

/-- The sample stack of two frames is walked in full: two entries, and then,
in place of `return 0`, the read of `ebp[1]` through the null pointer. -/
theorem mon_backtrace_walks_chain_witness :
    (∀ j, j < 2 → (next_fp (call_mem sample_env 1 0))^[j] (sample_env.read_ebp % WORD) ≠ 0) ∧
    (next_fp (call_mem sample_env 1 0))^[2] (sample_env.read_ebp % WORD) = 0 ∧ 2 ≤ 3 ∧
    ((frames_of (prints (mon_backtrace 3 sample_env 1 ["backtrace".toList] 0).trace)).map
        Frame.frame_pointer =
      (List.range 2).map
        (fun j => (next_fp (call_mem sample_env 1 0))^[j] (sample_env.read_ebp % WORD)) ∧
    (frames_of (prints (mon_backtrace 3 sample_env 1 ["backtrace".toList] 0).trace)).length = 2 ∧
    (mon_backtrace 3 sample_env 1 ["backtrace".toList] 0).ret = none ∧
    (mon_backtrace 3 sample_env 1 ["backtrace".toList] 0).trace.getLast? =
      some (Event.load 0 1) ∧
    Event.test 0 ∉ (mon_backtrace 3 sample_env 1 ["backtrace".toList] 0).trace ∧
    (2 = 0 → (mon_backtrace 3 sample_env 1 ["backtrace".toList] 0).trace = [Event.load 0 1])) ∧
    (frames_of (prints (mon_backtrace 3 sample_env 1 ["backtrace".toList] 0).trace)).map
      Frame.frame_pointer = [4096, 8192] :=
  ⟨by decide, by decide, by decide,
    mon_backtrace_walks_chain sample_env 2 3 1 ["backtrace".toList] 0 (by decide) (by decide)
      (by decide),
    by decide⟩

/-- Claim C2. In every backtrace entry `mon_backtrace` prints (whatever the
fuel, so also in the entries of a walk that is still running), the value on the
`eip` line is the word at `fp[1]` and the `args` line carries exactly the five
words `fp[2]`, ..., `fp[6]`, where `fp` is the value on the `ebp` line and the
words are those of the memory image of the call; the first entry is that of the
initial frame pointer, so its first three arguments are the `argc`, `argv` and
`tf` of the call; the frame pointer of each later entry is the word at `fp[0]`
of the entry before it, and when the walk has come to its end, the read that
follows the advance to a null pointer, the word at `fp[0]` of the last entry is
null. -/
theorem mon_backtrace_fields (fuel : Nat) (env : Env) (argc : Nat) (argv : List (List Char))
    (tf : Nat) :
    (∀ f, f ∈ frames_of (prints (mon_backtrace fuel env argc argv tf).trace) →
      f.return_address = load (call_mem env argc tf) f.frame_pointer 1 ∧
      f.arguments = (List.range 5).map
        (fun i => Arg.word (load (call_mem env argc tf) f.frame_pointer (2 + i)))) ∧
    (∀ f, (frames_of (prints (mon_backtrace fuel env argc argv tf).trace)).head? = some f →
      f.frame_pointer = env.read_ebp % WORD ∧
      f.arguments.take 3 =
        [Arg.word (argc % WORD), Arg.word (env.argv_addr % WORD), Arg.word (tf % WORD)]) ∧
    List.Chain' (fun a b => b.frame_pointer = load (call_mem env argc tf) a.frame_pointer 0)
      (frames_of (prints (mon_backtrace fuel env argc argv tf).trace)) ∧
    (∀ f, (mon_backtrace fuel env argc argv tf).trace.getLast? = some (Event.load 0 1) →
      (frames_of (prints (mon_backtrace fuel env argc argv tf).trace)).getLast? = some f →
      load (call_mem env argc tf) f.frame_pointer 0 = 0) := by
  have hm : (env.in_call argc tf).mem = call_mem env argc tf := rfl
  rw [frames_mon_backtrace]
  refine ⟨?_, ?_, ?_, ?_⟩
  · intro f hf
    obtain ⟨fp, _, rfl⟩ := List.mem_map.1 hf
    simp [frame_at, arg_words, Nat.add_comm, hm]
  · intro f hf
    rw [List.head?_map, walk_head] at hf
    by_cases h : fuel = 0 ∨ env.read_ebp % WORD = 0
    · simp [h] at hf
    · simp [h] at hf
      subst hf
      have ha := call_mem_args env argc tf
      have hr5 : List.range 5 = [0, 1, 2, 3, 4] := by decide
      refine ⟨rfl, ?_⟩
      simp [frame_at, arg_words, hm, hr5, ha.1, ha.2.1, ha.2.2]
  · rw [List.chain'_map]
    exact walk_chain (call_mem env argc tf) fuel _
  · intro f hr hl
    rw [List.getLast?_map] at hl
    cases hw : (walk (call_mem env argc tf) fuel (env.read_ebp % WORD)).getLast? with
    | none => simp [hw] at hl
    | some p =>
      simp [hw] at hl
      subst hl
      by_cases h0 : env.read_ebp % WORD = 0
      · simp [h0, walk_null] at hw
      · have hne : (backtrace_loop (env.in_call argc tf) fuel (env.read_ebp % WORD)
            (load (call_mem env argc tf) (env.read_ebp % WORD) 1)
            (arg_words (call_mem env argc tf) (env.read_ebp % WORD))).trace ≠ [] := by
          cases fuel with
          | zero => simp [walk] at hw
          | succ m => simp [backtrace_loop, h0, Run.after]
        simp only [mon_backtrace, Run.after, h0, if_false] at hr
        rw [List.getLast?_append_of_ne_nil _
            (by intro he; exact hne (List.append_eq_nil.1 he).2),
          List.getLast?_append_of_ne_nil _ hne] at hr
        exact walk_last (env.in_call argc tf) fuel _ _ _ p hr hw

/-- On the sample stack the entry of the frame at 4096, the frame of the call
itself, carries the return address 1048676 and the arguments 1 (`argc`), 8100
(`argv`), 0 (`tf`), 4 and 5 that are stored there. -/
theorem mon_backtrace_fields_witness :
    frame_at (sample_env.in_call 1 0) 4096 ∈
      frames_of (prints (mon_backtrace 3 sample_env 1 ["backtrace".toList] 0).trace) ∧
    ((frame_at (sample_env.in_call 1 0) 4096).return_address =
        load (call_mem sample_env 1 0) (frame_at (sample_env.in_call 1 0) 4096).frame_pointer 1 ∧
      (frame_at (sample_env.in_call 1 0) 4096).arguments = (List.range 5).map
        (fun i => Arg.word (load (call_mem sample_env 1 0)
          (frame_at (sample_env.in_call 1 0) 4096).frame_pointer (2 + i)))) ∧
    (frame_at (sample_env.in_call 1 0) 4096).return_address = 1048676 ∧
    (frame_at (sample_env.in_call 1 0) 4096).arguments =
      [Arg.word 1, Arg.word 8100, Arg.word 0, Arg.word 4, Arg.word 5] :=
  ⟨by decide,
    (mon_backtrace_fields 3 sample_env 1 ["backtrace".toList] 0).1
      (frame_at (sample_env.in_call 1 0) 4096) (by decide),
    by decide, by decide⟩

/-- Claim C3, which the code breaks. `mon_backtrace` reads `ebp[1]` and
`ebp[2 .. 6]` before its loop has tested `ebp`, both ahead of the loop and
after every advance of `ebp`: on no input is every read preceded by a test that
found the pointer non-null, and on a stack of one frame (whose saved frame
pointer is null) the run ends with the read of `ebp[1]` through the null
pointer, made with no loop test of it, and does not return. -/
theorem mon_backtrace_reads_before_test :
    (∀ (fuel : Nat) (env : Env) (argc : Nat) (argv : List (List Char)) (tf : Nat),
      derefs_validated [] (mon_backtrace fuel env argc argv tf).trace = false) ∧
    (mon_backtrace 2 one_frame_env 1 ["backtrace".toList] 0).ret = none ∧
    (mon_backtrace 2 one_frame_env 1 ["backtrace".toList] 0).trace.take 7 =
      [Event.load 4096 1, Event.load 4096 2, Event.load 4096 3, Event.load 4096 4,
       Event.load 4096 5, Event.load 4096 6, Event.cprintf "Stack backtrace:\n" []] ∧
    (mon_backtrace 2 one_frame_env 1 ["backtrace".toList] 0).trace.drop 13 =
      [Event.load 4096 0, Event.load 0 1] ∧
    Event.test 0 ∉ (mon_backtrace 2 one_frame_env 1 ["backtrace".toList] 0).trace :=
  ⟨derefs_unvalidated, by decide, by decide, by decide, by decide⟩

/-- Claim C4. In every backtrace entry `mon_backtrace` prints, with `R` the
word at `fp[1]` and `S` the function start the resolver reports for `R`, the
offset argument of the symbol line is `R - S` computed on 32-bit words; read as
a signed 32-bit value, as its `%d` conversion does, it is `R - S` reduced into
the signed range, and it is the plain distance `R - S` whenever `S ≤ R` and
`R - S < 2 ^ 31`. -/
theorem mon_backtrace_offset (fuel : Nat) (env : Env) (argc : Nat) (argv : List (List Char))
    (tf : Nat) (f : Frame)
    (hf : f ∈ frames_of (prints (mon_backtrace fuel env argc argv tf).trace)) :
    f.offset = sub32 (load (call_mem env argc tf) f.frame_pointer 1)
      (env.debuginfo_eip (load (call_mem env argc tf) f.frame_pointer 1)).eip_fn_addr ∧
    as_int32 f.offset = Int.bmod ((load (call_mem env argc tf) f.frame_pointer 1 : Int) -
      ((env.debuginfo_eip (load (call_mem env argc tf) f.frame_pointer 1)).eip_fn_addr : Int))
        4294967296 ∧
    ((env.debuginfo_eip (load (call_mem env argc tf) f.frame_pointer 1)).eip_fn_addr ≤
        load (call_mem env argc tf) f.frame_pointer 1 →
      load (call_mem env argc tf) f.frame_pointer 1 -
        (env.debuginfo_eip (load (call_mem env argc tf) f.frame_pointer 1)).eip_fn_addr <
          2147483648 →
      f.offset = load (call_mem env argc tf) f.frame_pointer 1 -
        (env.debuginfo_eip (load (call_mem env argc tf) f.frame_pointer 1)).eip_fn_addr ∧
      as_int32 f.offset = (load (call_mem env argc tf) f.frame_pointer 1 : Int) -
        ((env.debuginfo_eip (load (call_mem env argc tf) f.frame_pointer 1)).eip_fn_addr : Int)) := by
  rw [frames_mon_backtrace] at hf
  obtain ⟨fp, _, rfl⟩ := List.mem_map.1 hf
  refine ⟨rfl, as_int32_sub32 _ _, ?_⟩
  intro hle hlt
  have ho : (frame_at (env.in_call argc tf) fp).offset = sub32 (load (call_mem env argc tf) fp 1)
      (env.debuginfo_eip (load (call_mem env argc tf) fp 1)).eip_fn_addr := rfl
  have hp : (frame_at (env.in_call argc tf) fp).frame_pointer = fp := rfl
  rw [hp] at hle hlt
  have hs := sub32_of_le _ _ (load_lt (call_mem env argc tf) fp 1) hle
  rw [ho, hp, hs]
  refine ⟨rfl, ?_⟩
  unfold as_int32 WORD
  have := load_lt (call_mem env argc tf) fp 1
  unfold WORD at this
  split_ifs with h
  · omega
  · omega

/-- On the sample stack the entry of the frame at 4096 has the offset 1048676 -
1048576 = 100. -/
theorem mon_backtrace_offset_witness :
    frame_at (sample_env.in_call 1 0) 4096 ∈
      frames_of (prints (mon_backtrace 3 sample_env 1 ["backtrace".toList] 0).trace) ∧
    ((frame_at (sample_env.in_call 1 0) 4096).offset =
        sub32 (load (call_mem sample_env 1 0) 4096 1)
          (sample_env.debuginfo_eip (load (call_mem sample_env 1 0) 4096 1)).eip_fn_addr ∧
      as_int32 (frame_at (sample_env.in_call 1 0) 4096).offset =
        Int.bmod ((load (call_mem sample_env 1 0) 4096 1 : Int) -
          ((sample_env.debuginfo_eip (load (call_mem sample_env 1 0) 4096 1)).eip_fn_addr : Int))
            4294967296 ∧
      ((sample_env.debuginfo_eip (load (call_mem sample_env 1 0) 4096 1)).eip_fn_addr ≤
          load (call_mem sample_env 1 0) 4096 1 →
        load (call_mem sample_env 1 0) 4096 1 -
          (sample_env.debuginfo_eip (load (call_mem sample_env 1 0) 4096 1)).eip_fn_addr <
            2147483648 →
        (frame_at (sample_env.in_call 1 0) 4096).offset = load (call_mem sample_env 1 0) 4096 1 -
          (sample_env.debuginfo_eip (load (call_mem sample_env 1 0) 4096 1)).eip_fn_addr ∧
        as_int32 (frame_at (sample_env.in_call 1 0) 4096).offset =
          (load (call_mem sample_env 1 0) 4096 1 : Int) -
            ((sample_env.debuginfo_eip (load (call_mem sample_env 1 0) 4096 1)).eip_fn_addr :
              Int))) ∧
    (frame_at (sample_env.in_call 1 0) 4096).offset = 100 :=
  ⟨by decide,
    mon_backtrace_offset 3 sample_env 1 ["backtrace".toList] 0
      (frame_at (sample_env.in_call 1 0) 4096) (by decide),
    by decide⟩

/-! ## The tokenizer -/

theorem white_ne_NUL (c : Char) (h : isWhite c = true) : c ≠ NUL := by
  intro hc
  subst hc
  revert h
  decide

theorem gobble_cond (c : Char) : (c != NUL && strchr WHITESPACE c) = isWhite c := by
  by_cases h : c = NUL
  · subst h; decide
  · have hb : (c != NUL) = true := by simpa using h
    simp [strchr, WHITESPACE, isWhite, h, hb, Bool.or_assoc]

theorem scan_cond (c : Char) : (c != NUL && !strchr WHITESPACE c) = isTok c := by
  by_cases h : c = NUL
  · subst h; decide
  · have hb : (c != NUL) = true := by simpa using h
    simp [strchr, WHITESPACE, isWhite, isTok, h, hb, Bool.and_assoc]

theorem gobble_eq : ∀ (rest pre : List Char),
    gobble pre rest =
      (pre ++ (rest.takeWhile isWhite).map (fun _ => NUL), rest.dropWhile isWhite) := by
  intro rest
  induction rest with
  | nil => intro pre; simp [gobble]
  | cons c r ih =>
    intro pre
    by_cases h : isWhite c = true
    · simp [gobble, gobble_cond, h, ih]
    · simp [gobble, gobble_cond, h]

theorem scan_eq : ∀ (rest pre : List Char),
    scan pre rest = (pre ++ rest.takeWhile isTok, rest.dropWhile isTok) := by
  intro rest
  induction rest with
  | nil => intro pre; simp [scan]
  | cons c r ih =>
    intro pre
    by_cases h : isTok c = true
    · simp [scan, scan_cond, h, ih]
    · simp [scan, scan_cond, h]

/-! ### The line, its runs, and the buffer the specification expects -/

theorem line_nil : line [] = [] := rfl

theorem line_cons_NUL (r : List Char) : line (NUL :: r) = [] := by
  simp [line]

theorem line_cons_of_ne (c : Char) (r : List Char) (h : c ≠ NUL) :
    line (c :: r) = c :: line r := by
  simp [line, h]

theorem line_of_cur (rest : List Char) (h : Tok.cur rest = NUL) : line rest = [] := by
  cases rest with
  | nil => rfl
  | cons c r =>
    simp [Tok.cur] at h
    subst h
    exact line_cons_NUL r

theorem zap_of_cur (rest : List Char) (h : Tok.cur rest = NUL) : zap rest = rest := by
  simp [zap, line_of_cur rest h]

theorem zap_cons_white (c : Char) (r : List Char) (h : isWhite c = true) :
    zap (c :: r) = NUL :: zap r := by
  simp [zap, line_cons_of_ne c r (white_ne_NUL c h), h]

theorem zap_cons_tok (c : Char) (r : List Char) (h : isTok c = true) :
    zap (c :: r) = c :: zap r := by
  simp [isTok] at h
  simp [zap, line_cons_of_ne c r h.1, h.2]

theorem tok_ne_NUL (c : Char) (h : isTok c = true) : c ≠ NUL := by
  simp [isTok] at h
  exact h.1

theorem tok_not_white (c : Char) (h : isTok c = true) : isWhite c = false := by
  simp [isTok] at h
  exact h.2

theorem zap_gobble : ∀ (rest : List Char),
    zap rest = (rest.takeWhile isWhite).map (fun _ => NUL) ++ zap (rest.dropWhile isWhite) := by
  intro rest
  induction rest with
  | nil => simp
  | cons c r ih =>
    by_cases h : isWhite c = true
    · simp [zap_cons_white c r h, h, ih]
    · simp [h]

theorem zap_scan : ∀ (rest : List Char),
    zap rest = rest.takeWhile isTok ++ zap (rest.dropWhile isTok) := by
  intro rest
  induction rest with
  | nil => simp
  | cons c r ih =>
    by_cases h : isTok c = true
    · simp [zap_cons_tok c r h, h, ih]
    · simp [h]

/-- After a token has been scanned the buffer continues with a terminator (or
ends). -/
theorem zap_after_scan (rest : List Char) :
    (zap (rest.dropWhile isTok)).takeWhile (fun c => c != NUL) = [] := by
  cases hd : rest.dropWhile isTok with
  | nil => simp [zap, line]
  | cons c r =>
    have hc : isTok c = false := by
      have := List.head_dropWhile_not isTok rest (by simp [hd])
      simpa [hd] using this
    by_cases hn : c = NUL
    · subst hn
      simp [zap_of_cur (NUL :: r) (by simp [Tok.cur])]
    · have hw : isWhite c = true := by
        simp [isTok, hn] at hc
        exact hc
      simp [zap_cons_white c r hw]

theorem runs_nil : runs [] = [] := by
  simp [runs, List.splitOnP_nil]

theorem runs_cons_white (c : Char) (l : List Char) (h : isWhite c = true) :
    runs (c :: l) = runs l := by
  simp [runs, List.splitOnP_cons, h]

theorem runs_line_gobble : ∀ (rest : List Char),
    runs (line rest) = runs (line (rest.dropWhile isWhite)) := by
  intro rest
  induction rest with
  | nil => simp
  | cons c r ih =>
    by_cases h : isWhite c = true
    · simp [line_cons_of_ne c r (white_ne_NUL c h), runs_cons_white _ _ h, h, ih]
    · simp [h]

theorem line_scan : ∀ (rest : List Char),
    line rest = rest.takeWhile isTok ++ line (rest.dropWhile isTok) := by
  intro rest
  induction rest with
  | nil => simp
  | cons c r ih =>
    by_cases h : isTok c = true
    · simp [line_cons_of_ne c r (tok_ne_NUL c h), h, ih]
    · simp [h]

/-- A token followed by the rest of the line is the first run of the line. -/
theorem runs_line_scan (rest : List Char) (h : rest.takeWhile isTok ≠ []) :
    runs (line rest) = rest.takeWhile isTok :: runs (line (rest.dropWhile isTok)) := by
  have ht : ∀ x ∈ rest.takeWhile isTok, ¬ isWhite x = true := by
    intro x hx
    have := List.mem_takeWhile_imp hx
    simp [tok_not_white x this]
  have hne : (rest.takeWhile isTok).isEmpty = false := by
    cases hh : rest.takeWhile isTok with
    | nil => exact absurd hh h
    | cons a l => rfl
  rw [line_scan rest]
  cases hd : rest.dropWhile isTok with
  | nil =>
    simp [line_nil, runs_nil]
    simp [runs, List.splitOnP_eq_single isWhite _ ht, hne]
  | cons c r =>
    have hc : isTok c = false := by
      have := List.head_dropWhile_not isTok rest (by simp [hd])
      simpa [hd] using this
    by_cases hn : c = NUL
    · subst hn
      simp [line_cons_NUL, runs_nil]
      simp [runs, List.splitOnP_eq_single isWhite _ ht, hne]
    · have hw : isWhite c = true := by
        simp [isTok, hn] at hc
        exact hc
      rw [line_cons_of_ne c r hn, runs_cons_white _ _ hw]
      simp [runs, List.splitOnP_first isWhite _ ht c hw (line r), hne]

theorem cstr_token (pre t tail : List Char) (ht : ∀ x ∈ t, isTok x = true)
    (htail : tail.takeWhile (fun c => c != NUL) = []) :
    cstr (pre ++ (t ++ tail)) pre.length = t := by
  have h1 : ∀ a ∈ t, (fun c => c != NUL) a = true := by
    intro a ha
    simpa using tok_ne_NUL a (ht a ha)
  simp only [cstr, List.drop_left]
  rw [List.takeWhile_append_of_pos h1, htail, List.append_nil]

theorem length_dropWhile_le (p : Char → Bool) (l : List Char) :
    (l.dropWhile p).length ≤ l.length :=
  (List.dropWhile_sublist p).length_le

theorem length_dropWhile_lt (p : Char → Bool) (l : List Char) (h : l.takeWhile p ≠ []) :
    (l.dropWhile p).length < l.length := by
  have := congrArg List.length (List.takeWhile_append_dropWhile p l)
  rw [List.length_append] at this
  have h2 : 0 < (l.takeWhile p).length := List.length_pos.2 h
  omega

/-- What is left after the whitespace has been gobbled starts a token, unless
it starts with the terminator. -/
theorem takeWhile_tok_ne_nil (rest : List Char)
    (h : Tok.cur (rest.dropWhile isWhite) ≠ NUL) :
    (rest.dropWhile isWhite).takeWhile isTok ≠ [] := by
  cases hd : rest.dropWhile isWhite with
  | nil => simp [hd, Tok.cur] at h
  | cons c r =>
    have hc : isWhite c = false := by
      have := List.head_dropWhile_not isWhite rest (by simp [hd])
      simpa [hd] using this
    have hn : c ≠ NUL := by simpa [hd, Tok.cur] using h
    have ht : isTok c = true := by simp [isTok, hn, hc]
    simp [ht]

/-- The tokenizing loop, entered with fewer bytes ahead than fuel and room for
all the tokens ahead, leaves by `break`; it has then counted the runs of the
rest of the line, stored a pointer to each in the next free slots of `argv`,
touched no other slot, and turned the buffer into the one the specification
expects. -/
theorem tokenize_loop_done : ∀ (fuel : Nat) (pre rest : List Char) (argc : Nat)
    (argv : List (Option Nat)),
    rest.length < fuel → argv.length = MAXARGS →
    argc + (runs (line rest)).length ≤ 15 →
    ∃ st, tokenize_loop fuel ⟨pre, rest, argc, argv⟩ = some (Parse.done st) ∧
      st.argc = argc + (runs (line rest)).length ∧
      st.pre ++ st.rest = pre ++ zap rest ∧
      st.argv.length = MAXARGS ∧
      (∀ i, i < argc → st.argv[i]? = argv[i]?) ∧
      (∀ i, argc + (runs (line rest)).length ≤ i → st.argv[i]? = argv[i]?) ∧
      (∀ i, i < (runs (line rest)).length → ∃ p, st.argv[argc + i]? = some (some p) ∧
        (runs (line rest))[i]? = some (cstr (pre ++ zap rest) p)) := by
  intro fuel
  induction fuel with
  | zero => intro pre rest argc argv hf; omega
  | succ m ih =>
    intro pre rest argc argv hf hlen hn
    by_cases hcur : Tok.cur (rest.dropWhile isWhite) = NUL
    · have hr : runs (line rest) = [] := by
        rw [runs_line_gobble, line_of_cur _ hcur, runs_nil]
      refine ⟨⟨pre ++ (rest.takeWhile isWhite).map (fun _ => NUL), rest.dropWhile isWhite,
        argc, argv⟩, ?_, ?_, ?_, hlen, ?_, ?_, ?_⟩
      · simp [tokenize_loop, gobble_eq, hcur]
      · simp [hr]
      · rw [zap_gobble rest, zap_of_cur _ hcur]
        simp
      · intro i _; rfl
      · intro i _; rfl
      · intro i hi; simp [hr] at hi
    · have htk := takeWhile_tok_ne_nil rest hcur
      have hr : runs (line rest) = (rest.dropWhile isWhite).takeWhile isTok ::
          runs (line ((rest.dropWhile isWhite).dropWhile isTok)) := by
        rw [runs_line_gobble, runs_line_scan _ htk]
      rw [hr] at hn ⊢
      simp only [List.length_cons] at hn ⊢
      have hargc : argc ≠ MAXARGS - 1 := by simp [MAXARGS]; omega
      have hlt : ((rest.dropWhile isWhite).dropWhile isTok).length < m := by
        have h1 := length_dropWhile_lt isTok _ htk
        have h2 := length_dropWhile_le isWhite rest
        omega
      obtain ⟨st, hst, hc, hb, hl, hlo, hhi, htoks⟩ :=
        ih ((pre ++ (rest.takeWhile isWhite).map (fun _ => NUL)) ++
            (rest.dropWhile isWhite).takeWhile isTok)
          ((rest.dropWhile isWhite).dropWhile isTok) (argc + 1)
          (argv.set argc (some (pre ++ (rest.takeWhile isWhite).map (fun _ => NUL)).length))
          hlt (by simpa using hlen) (by omega)
      have hbuf : pre ++ zap rest = (pre ++ (rest.takeWhile isWhite).map (fun _ => NUL)) ++
          ((rest.dropWhile isWhite).takeWhile isTok ++
            zap ((rest.dropWhile isWhite).dropWhile isTok)) := by
        rw [zap_gobble rest, zap_scan (rest.dropWhile isWhite)]
        simp
      refine ⟨st, ?_, ?_, ?_, hl, ?_, ?_, ?_⟩
      · simp only [tokenize_loop, gobble_eq, scan_eq, hcur, hargc, if_false]
        exact hst
      · rw [hc]; omega
      · rw [hb, hbuf]; simp
      · intro i hi
        rw [hlo i (by omega), List.getElem?_set_ne (by omega)]
      · intro i hi
        rw [hhi i (by omega), List.getElem?_set_ne (by omega)]
      · intro i hi
        cases i with
        | zero =>
          refine ⟨(pre ++ (rest.takeWhile isWhite).map (fun _ => NUL)).length, ?_, ?_⟩
          · rw [Nat.add_zero, hlo argc (by omega), List.getElem?_set_eq_of_lt]
            rw [hlen]; simp [MAXARGS]; omega
          · rw [hbuf, cstr_token _ _ _ (fun x hx => List.mem_takeWhile_imp hx)
              (zap_after_scan _)]
            simp
        | succ k =>
          obtain ⟨p, hp1, hp2⟩ := htoks k (by omega)
          refine ⟨p, ?_, ?_⟩
          · rw [← hp1]; congr 1; omega
          · rw [List.getElem?_cons_succ, hp2, hbuf]
            simp

/-! ## The command interpreter -/

theorem tokenize_loop_too_many : ∀ (fuel : Nat) (pre rest : List Char) (argc : Nat)
    (argv : List (Option Nat)),
    rest.length < fuel → argc ≤ 15 → 15 < argc + (runs (line rest)).length →
    ∃ st, tokenize_loop fuel ⟨pre, rest, argc, argv⟩ = some (Parse.too_many st) ∧
      st.argc = 15 ∧ st.rest <:+ rest := by
  intro fuel
  induction fuel with
  | zero => intro pre rest argc argv hf; omega
  | succ m ih =>
    intro pre rest argc argv hf hle hn
    by_cases hcur : Tok.cur (rest.dropWhile isWhite) = NUL
    · have hr : runs (line rest) = [] := by
        rw [runs_line_gobble, line_of_cur _ hcur, runs_nil]
      simp [hr] at hn
      omega
    · have htk := takeWhile_tok_ne_nil rest hcur
      have hr : runs (line rest) = (rest.dropWhile isWhite).takeWhile isTok ::
          runs (line ((rest.dropWhile isWhite).dropWhile isTok)) := by
        rw [runs_line_gobble, runs_line_scan _ htk]
      rw [hr] at hn
      simp only [List.length_cons] at hn
      by_cases hargc : argc = MAXARGS - 1
      · refine ⟨⟨pre ++ (rest.takeWhile isWhite).map (fun _ => NUL), rest.dropWhile isWhite,
          argc, argv⟩, ?_, ?_, ?_⟩
        · simp [tokenize_loop, gobble_eq, hcur, hargc]
        · simpa [MAXARGS] using hargc
        · exact List.dropWhile_suffix isWhite
      · have hlt : ((rest.dropWhile isWhite).dropWhile isTok).length < m := by
          have h1 := length_dropWhile_lt isTok _ htk
          have h2 := length_dropWhile_le isWhite rest
          omega
        have hargc1 : argc + 1 ≤ 15 := by
          simp [MAXARGS] at hargc
          omega
        obtain ⟨st, hst, hc, hsuf⟩ :=
          ih ((pre ++ (rest.takeWhile isWhite).map (fun _ => NUL)) ++
              (rest.dropWhile isWhite).takeWhile isTok)
            ((rest.dropWhile isWhite).dropWhile isTok) (argc + 1)
            (argv.set argc (some (pre ++ (rest.takeWhile isWhite).map (fun _ => NUL)).length))
            hlt hargc1 (by omega)
        refine ⟨st, ?_, hc, ?_⟩
        · simp only [tokenize_loop, gobble_eq, scan_eq, hcur, hargc, if_false]
          exact hst
        · exact hsuf.trans ((List.dropWhile_suffix isTok).trans (List.dropWhile_suffix isWhite))

/-- A line with at most 15 runs is tokenized in full. -/
theorem tokenize_done (env : Env) (buf : List Char) (h : (runs (line buf)).length ≤ 15) :
    ∃ st, tokenize env buf = some (Parse.done st) ∧
      st.argc = (runs (line buf)).length ∧ st.buffer = zap buf ∧
      st.argv.length = MAXARGS ∧ st.argv[st.argc]? = some none ∧
      st.strings = runs (line buf) := by
  obtain ⟨st, hst, hc, hb, hl, _, _, htoks⟩ :=
    tokenize_loop_done (buf.length + 1) [] buf 0
      (((List.range MAXARGS).map env.argv_junk).set 0 none) (by omega) (by simp) (by omega)
  simp only [Nat.zero_add, List.nil_append] at hc hb htoks
  have hlt : st.argc < st.argv.length := by rw [hl, hc]; simp [MAXARGS]; omega
  refine ⟨⟨st.pre, st.rest, st.argc, st.argv.set st.argc none⟩, ?_, hc, hb, by simpa using hl,
    ?_, ?_⟩
  · simp [tokenize, hst]
  · simp [List.getElem?_set_eq_of_lt, hlt]
  · apply List.ext_getElem?
    intro i
    simp only [Tok.strings, Tok.buffer, hb]
    by_cases hi : i < (runs (line buf)).length
    · obtain ⟨p, hp1, hp2⟩ := htoks i hi
      rw [hp2, List.getElem?_map, List.getElem?_take_of_lt (by omega),
        List.getElem?_set_ne (by omega), hp1]
      rfl
    · have h1 : (runs (line buf))[i]? = none := List.getElem?_eq_none (by omega)
      rw [h1, List.getElem?_eq_none]
      simp only [List.length_map, List.length_take, List.length_set]
      omega

/-- A line with 16 runs or more is rejected. -/
theorem tokenize_too_many (env : Env) (buf : List Char) (h : 16 ≤ (runs (line buf)).length) :
    ∃ st, tokenize env buf = some (Parse.too_many st) ∧ st.argc = 15 ∧ st.rest <:+ buf := by
  obtain ⟨st, hst, hc⟩ :=
    tokenize_loop_too_many (buf.length + 1) [] buf 0
      (((List.range MAXARGS).map env.argv_junk).set 0 none) (by omega) (by omega) (by omega)
  exact ⟨st, by simp [tokenize, hst], hc⟩

theorem tokenize_done_inv (env : Env) (buf : List Char) (st : Tok)
    (h : tokenize env buf = some (Parse.done st)) :
    (runs (line buf)).length ≤ 15 ∧ st.argc = (runs (line buf)).length ∧
      st.buffer = zap buf ∧ st.argv.length = MAXARGS ∧ st.argv[st.argc]? = some none ∧
      st.strings = runs (line buf) := by
  by_cases hn : (runs (line buf)).length ≤ 15
  · obtain ⟨st1, h1, hrest⟩ := tokenize_done env buf hn
    rw [h1] at h
    injection h with h
    injection h with h
    subst h
    exact ⟨hn, hrest⟩
  · obtain ⟨st1, h1, _⟩ := tokenize_too_many env buf (by omega)
    rw [h1] at h
    injection h with h
    cases h

theorem tokenize_too_many_inv (env : Env) (buf : List Char) (st : Tok)
    (h : tokenize env buf = some (Parse.too_many st)) :
    16 ≤ (runs (line buf)).length ∧ st.argc = 15 ∧ st.rest <:+ buf := by
  by_cases hn : (runs (line buf)).length ≤ 15
  · obtain ⟨st1, h1, _⟩ := tokenize_done env buf hn
    rw [h1] at h
    injection h with h
    cases h
  · obtain ⟨st1, h1, hc⟩ := tokenize_too_many env buf (by omega)
    rw [h1] at h
    injection h with h
    injection h with h
    subst h
    exact ⟨by omega, hc⟩

/-- The pieces between separators hold no separator, and only elements of the
list that was split. -/
theorem mem_splitOnP (p : Char → Bool) : ∀ (l t : List Char), t ∈ l.splitOnP p →
    ∀ c ∈ t, p c = false ∧ c ∈ l := by
  intro l
  induction l with
  | nil =>
    intro t ht c hc
    simp at ht
    subst ht
    simp at hc
  | cons x xs ih =>
    intro t ht c hc
    rw [List.splitOnP_cons] at ht
    by_cases hx : p x = true
    · simp only [hx, if_true, List.mem_cons] at ht
      rcases ht with rfl | ht
      · simp at hc
      · exact ⟨(ih t ht c hc).1, List.mem_cons_of_mem _ (ih t ht c hc).2⟩
    · simp only [hx] at ht
      cases hs : xs.splitOnP p with
      | nil => exact absurd hs (List.splitOnP_ne_nil p xs)
      | cons hd tl =>
        rw [hs] at ht ih
        have ht1 : t = x :: hd ∨ t ∈ tl := by simpa using ht
        rcases ht1 with h1 | ht
        · rw [h1] at hc
          rcases List.mem_cons.1 hc with h2 | hc1
          · rw [h2]
            exact ⟨by simpa using hx, List.mem_cons_self _ _⟩
          · have := ih hd (List.mem_cons_self _ _) c hc1
            exact ⟨this.1, List.mem_cons_of_mem _ this.2⟩
        · have := ih t (List.mem_cons_of_mem _ ht) c hc
          exact ⟨this.1, List.mem_cons_of_mem _ this.2⟩

/-- Every run is non-empty and holds neither whitespace nor a terminator. -/
theorem runs_line_spec (buf t : List Char) (ht : t ∈ runs (line buf)) :
    t ≠ [] ∧ ∀ c ∈ t, isWhite c = false ∧ c ≠ NUL := by
  simp only [runs, List.mem_filter] at ht
  refine ⟨?_, ?_⟩
  · intro h
    subst h
    simp at ht
  · intro c hc
    have := mem_splitOnP isWhite _ t ht.1 c hc
    refine ⟨this.1, ?_⟩
    have h2 := List.mem_takeWhile_imp this.2
    simpa using h2

/-! ### Dispatch -/

theorem toNat_eq_zero (c : Char) (h : c.toNat = 0) : c = NUL := by
  have := Char.ofNat_toNat c
  rw [h] at this
  exact this.symm

theorem toNat_inj (a b : Char) (h : a.toNat = b.toNat) : a = b := by
  rw [← Char.ofNat_toNat a, ← Char.ofNat_toNat b, h]

/-- On strings without a terminator inside, `strcmp` yields 0 exactly for
equal strings. -/
theorem strcmp_eq_zero : ∀ (a b : List Char), NUL ∉ a → NUL ∉ b →
    (strcmp a b = 0 ↔ a = b) := by
  intro a
  induction a with
  | nil =>
    intro b _ hb
    cases b with
    | nil => simp [strcmp]
    | cons y t =>
      simp only [strcmp]
      constructor
      · intro h
        have : y.toNat = 0 := by omega
        exact absurd (toNat_eq_zero y this) (fun e => hb (by simp [e]))
      · intro h; cases h
  | cons x s ih =>
    intro b ha hb
    cases b with
    | nil =>
      simp only [strcmp]
      constructor
      · intro h
        have : x.toNat = 0 := by omega
        exact absurd (toNat_eq_zero x this) (fun e => ha (by simp [e]))
      · intro h; cases h
    | cons y t =>
      simp only [strcmp]
      by_cases hxy : x = y
      · subst hxy
        have := ih t (fun h => ha (List.mem_cons_of_mem _ h)) (fun h => hb (List.mem_cons_of_mem _ h))
        simp [this]
      · simp only [hxy, if_false]
        constructor
        · intro h
          exact absurd (toNat_inj x y (by omega)) hxy
        · intro h
          injection h with h1 _
          exact absurd h1 hxy

theorem cstr_no_NUL (m : List Char) (p : Nat) : NUL ∉ cstr m p := by
  intro h
  have := List.mem_takeWhile_imp h
  simp at this

theorem strings_no_NUL (st : Tok) (t : List Char) (ht : t ∈ st.strings) : NUL ∉ t := by
  simp only [Tok.strings, List.mem_map] at ht
  obtain ⟨a, _, rfl⟩ := ht
  cases a with
  | none => simp
  | some p => exact cstr_no_NUL _ p

/-- The loop over the table calls the entry whose name is the first token. -/
theorem lookup_of_mem (fuel : Nat) (env : Env) (argc : Nat) (argv : List (List Char)) (tf : Nat)
    (c : Command) (hc : c ∈ commands) (h0 : argv.headD [] = c.name) :
    lookup fuel env argc argv tf commands = call fuel env c.func argc argv tf := by
  simp only [commands, List.mem_cons, List.mem_singleton, List.not_mem_nil, or_false] at hc
  rcases hc with rfl | rfl | rfl
  · simp only [commands, lookup, h0]
    rfl
  · simp only [commands, lookup, h0]
    rfl
  · simp only [commands, lookup, h0]
    rfl

/-- The loop over the table falls through when no name is the first token. -/
theorem lookup_of_not_mem (fuel : Nat) (env : Env) (argc : Nat) (argv : List (List Char))
    (tf : Nat) (hn : NUL ∉ argv.headD []) : ∀ (cs : List Command),
    (∀ c ∈ cs, NUL ∉ c.name) → (∀ c ∈ cs, c.name ≠ argv.headD []) →
    lookup fuel env argc argv tf cs =
      ⟨[Event.cprintf "Unknown command '%s'\n" [Arg.str (argv.headD [])]], some 0⟩ := by
  intro cs
  induction cs with
  | nil => intro _ _; rfl
  | cons c cs ih =>
    intro h1 h2
    have hne : ¬ strcmp (argv.headD []) c.name = 0 := by
      rw [strcmp_eq_zero _ _ hn (h1 c (List.mem_cons_self _ _))]
      exact fun e => h2 c (List.mem_cons_self _ _) e.symm
    simp only [lookup, hne, if_false]
    exact ih (fun c hc => h1 c (List.mem_cons_of_mem _ hc))
      (fun c hc => h2 c (List.mem_cons_of_mem _ hc))

theorem commands_no_NUL : ∀ c ∈ commands, NUL ∉ c.name := by
  decide

/-- No built-in command produces an event of `runcmd`: it calls no entry of the
table and prints neither of the two messages of `runcmd`. -/
theorem backtrace_loop_quiet (env : Env) : ∀ (fuel ebp eip : Nat) (arg : List Nat),
    ((backtrace_loop env fuel ebp eip arg).trace.all (fun e => !of_runcmd e)) = true := by
  intro fuel
  induction fuel with
  | zero => intro ebp eip arg; simp [backtrace_loop]
  | succ n ih =>
    intro ebp eip arg
    by_cases h : ebp = 0
    · simp [backtrace_loop, h, of_runcmd]
    · have ih1 := ih (load env.mem ebp 0) (load env.mem (load env.mem ebp 0) 1)
        (arg_words env.mem (load env.mem ebp 0))
      by_cases h1 : load env.mem ebp 0 = 0
      · simp [backtrace_loop, h, h1, Run.after, of_runcmd]
      · simp only [backtrace_loop, h, h1, if_false, Run.after, List.all_append, ih1,
          Bool.and_true]
        simp [of_runcmd, arg_loads]

theorem apply_handler_quiet (fuel : Nat) (env : Env) (h : Handler) (argc : Nat)
    (argv : List (List Char)) (tf : Nat) :
    ((apply_handler fuel env h argc argv tf).trace.all (fun e => !of_runcmd e)) = true := by
  cases h with
  | mon_help => simp [apply_handler, mon_help, commands, of_runcmd]
  | mon_kerninfo => simp [apply_handler, mon_kerninfo, of_runcmd]
  | mon_backtrace =>
    have := backtrace_loop_quiet (env.in_call argc tf) fuel (env.read_ebp % WORD)
      (load (call_mem env argc tf) (env.read_ebp % WORD) 1)
      (arg_words (call_mem env argc tf) (env.read_ebp % WORD))
    by_cases h0 : env.read_ebp % WORD = 0
    · simp [apply_handler, mon_backtrace, Run.after, h0, of_runcmd]
    · simp only [apply_handler, mon_backtrace, Run.after, h0, if_false, List.all_append, this,
        Bool.and_true]
      simp [of_runcmd, arg_loads]

theorem invokes_of_quiet (tr : List Event) (h : (tr.all (fun e => !of_runcmd e)) = true) :
    invokes tr = [] := by
  simp only [invokes, List.filter_eq_nil_iff]
  intro e he
  have := List.all_eq_true.1 h e he
  cases e <;> simp_all [of_runcmd]

/-! ## The claims about the command interpreter -/

/-- Claim C5. When `runcmd` does not reject a line for too many tokens, its
tokenizing loop ends with `argc` equal to the number of maximal runs of
non-whitespace characters of the line (whitespace being tab, carriage return,
newline and space) and with `argv[0]`, ..., `argv[argc - 1]` pointing to
exactly those runs, in order; so every token is non-empty and holds no
whitespace character (and no terminator). -/
theorem tokenizer_correct (env : Env) (buf : List Char)
    (h : ∀ st, tokenize env buf ≠ some (Parse.too_many st)) :
    ∃ st, tokenize env buf = some (Parse.done st) ∧
      st.argc = (runs (line buf)).length ∧
      st.strings = runs (line buf) ∧
      st.strings.length = st.argc ∧
      ∀ t ∈ st.strings, t ≠ [] ∧ ∀ c ∈ t, isWhite c = false ∧ c ≠ NUL := by
  by_cases hn : (runs (line buf)).length ≤ 15
  · obtain ⟨st, hst, hc, _, _, _, hs⟩ := tokenize_done env buf hn
    refine ⟨st, hst, hc, hs, by rw [hs, hc], ?_⟩
    intro t ht
    rw [hs] at ht
    exact runs_line_spec buf t ht
  · obtain ⟨st, hst, _⟩ := tokenize_too_many env buf (by omega)
    exact absurd hst (h st)

/-- A line with blanks, a tab and a newline around two tokens: the tokens are
`foo` and `bar`. -/
theorem tokenizer_correct_witness :
    (∀ st, tokenize sample_env "  foo\tbar \n".toList ≠ some (Parse.too_many st)) ∧
    (∃ st, tokenize sample_env "  foo\tbar \n".toList = some (Parse.done st) ∧
      st.argc = (runs (line "  foo\tbar \n".toList)).length ∧
      st.strings = runs (line "  foo\tbar \n".toList) ∧
      st.strings.length = st.argc ∧
      ∀ t ∈ st.strings, t ≠ [] ∧ ∀ c ∈ t, isWhite c = false ∧ c ≠ NUL) ∧
    runs (line "  foo\tbar \n".toList) = ["foo".toList, "bar".toList] :=
  have h : ∀ st, tokenize sample_env "  foo\tbar \n".toList ≠ some (Parse.too_many st) :=
    fun st e => (tokenize_too_many_inv sample_env _ st e).1.not_lt (by decide)
  ⟨h, tokenizer_correct sample_env "  foo\tbar \n".toList h, by decide⟩

theorem strings_head (st : Tok) (t : List Char) (h : st.strings.head? = some t) :
    st.strings.headD [] = t ∧ st.argc ≠ 0 ∧ NUL ∉ t := by
  refine ⟨?_, ?_, ?_⟩
  · cases hs : st.strings with
    | nil => simp [hs] at h
    | cons a l =>
      rw [hs] at h
      simpa using h
  · intro h0
    simp [Tok.strings, h0] at h
  · exact strings_no_NUL st t (List.mem_of_mem_head? h)

theorem runcmd_done (fuel : Nat) (env : Env) (buf : List Char) (tf : Nat) (st : Tok)
    (hst : tokenize env buf = some (Parse.done st)) (h0 : st.argc ≠ 0) :
    runcmd fuel env buf tf = lookup fuel env st.argc st.strings tf commands := by
  simp [runcmd, hst, h0]

theorem monitor_loop_head (run : List Char → Run) (script : List (Option (List Char))) :
    (monitor_loop run script).trace.head? = some (Event.readline "K> ") := by
  cases script with
  | nil => rfl
  | cons a more =>
    cases a with
    | none => rfl
    | some buf =>
      simp only [monitor_loop]
      cases (run buf).ret with
      | none => rfl
      | some s =>
        by_cases hs : s < 0
        · simp [hs]
        · simp [hs, Run.after]

theorem monitor_loop_continue (run : List Char → Run) (buf : List Char)
    (script : List (Option (List Char))) (s : Int) (h : (run buf).ret = some s) (hs : 0 ≤ s) :
    monitor_loop run (some buf :: script) =
      Run.after (Event.readline "K> " :: (run buf).trace) (monitor_loop run script) := by
  have : ¬ s < 0 := by omega
  simp [monitor_loop, h, this]

/-- Claim C6. The names in the command table are pairwise distinct, and when a
line tokenizes without error with the name of a table entry as its first token,
`runcmd` calls the function of that entry with `argc`, the full `argv` and the
trap frame it was given, makes no other call through the table, adds nothing
of its own to what that function does, and returns what it returns. -/
theorem runcmd_dispatch (fuel : Nat) (env : Env) (buf : List Char) (tf : Nat) (st : Tok)
    (c : Command) (hst : tokenize env buf = some (Parse.done st)) (hc : c ∈ commands)
    (h0 : st.strings.head? = some c.name) :
    (commands.map Command.name).Nodup ∧
    runcmd fuel env buf tf =
      Run.after [Event.invoke c.func st.argc st.strings tf]
        (apply_handler fuel env c.func st.argc st.strings tf) ∧
    invokes (runcmd fuel env buf tf).trace = [Event.invoke c.func st.argc st.strings tf] ∧
    (runcmd fuel env buf tf).ret = (apply_handler fuel env c.func st.argc st.strings tf).ret ∧
    st.strings = runs (line buf) := by
  obtain ⟨hd, hargc, _⟩ := strings_head st c.name h0
  have hr : runcmd fuel env buf tf =
      Run.after [Event.invoke c.func st.argc st.strings tf]
        (apply_handler fuel env c.func st.argc st.strings tf) := by
    rw [runcmd_done fuel env buf tf st hst hargc, lookup_of_mem fuel env _ _ tf c hc hd]
    rfl
  refine ⟨by decide, hr, ?_, ?_, (tokenize_done_inv env buf st hst).2.2.2.2.2⟩
  · rw [hr]
    have hq := invokes_of_quiet _ (apply_handler_quiet fuel env c.func st.argc st.strings tf)
    simp only [invokes] at hq
    simp [Run.after, invokes, List.filter_cons, hq]
  · rw [hr]
    rfl

/-- The line `kerninfo -v` calls `mon_kerninfo` with both tokens and the trap
frame pointer 7. -/
theorem runcmd_dispatch_witness :
    tokenize sample_env "kerninfo -v".toList =
      some (Parse.done ⟨"kerninfo".toList ++ [NUL] ++ "-v".toList, [], 2,
        [some 0, some 9, none, none, none, none, none, none, none, none, none, none, none, none,
          none, none]⟩) ∧
    (⟨"kerninfo".toList, "Display information about the kernel".toList, Handler.mon_kerninfo⟩ :
      Command) ∈ commands ∧
    ((commands.map Command.name).Nodup ∧
      runcmd 0 sample_env "kerninfo -v".toList 7 =
        Run.after [Event.invoke Handler.mon_kerninfo 2 ["kerninfo".toList, "-v".toList] 7]
          (apply_handler 0 sample_env Handler.mon_kerninfo 2 ["kerninfo".toList, "-v".toList] 7) ∧
      invokes (runcmd 0 sample_env "kerninfo -v".toList 7).trace =
        [Event.invoke Handler.mon_kerninfo 2 ["kerninfo".toList, "-v".toList] 7] ∧
      (runcmd 0 sample_env "kerninfo -v".toList 7).ret =
        (apply_handler 0 sample_env Handler.mon_kerninfo 2
          ["kerninfo".toList, "-v".toList] 7).ret ∧
      ["kerninfo".toList, "-v".toList] = runs (line "kerninfo -v".toList)) :=
  ⟨by decide, by decide,
    runcmd_dispatch 0 sample_env "kerninfo -v".toList 7
      ⟨"kerninfo".toList ++ [NUL] ++ "-v".toList, [], 2,
        [some 0, some 9, none, none, none, none, none, none, none, none, none, none, none, none,
          none, none]⟩
      ⟨"kerninfo".toList, "Display information about the kernel".toList, Handler.mon_kerninfo⟩
      (by decide) (by decide) (by decide)⟩

/-- Claim C7. When a line tokenizes without error and its first token is not
(character for character) the name of any table entry, `runcmd` makes no call
through the table, prints the unknown-command message with that first token
once and nothing else, and returns 0; the loop of `monitor` then goes on to
its next call of `readline`. -/
theorem runcmd_unknown (fuel : Nat) (env : Env) (buf : List Char) (tf : Nat) (st : Tok)
    (tok : List Char) (script : List (Option (List Char)))
    (hst : tokenize env buf = some (Parse.done st)) (h0 : st.strings.head? = some tok)
    (hne : ∀ c ∈ commands, c.name ≠ tok) :
    runcmd fuel env buf tf = ⟨[Event.cprintf "Unknown command '%s'\n" [Arg.str tok]], some 0⟩ ∧
    invokes (runcmd fuel env buf tf).trace = [] ∧
    monitor_loop (fun b => runcmd fuel env b tf) (some buf :: script) =
      Run.after [Event.readline "K> ", Event.cprintf "Unknown command '%s'\n" [Arg.str tok]]
        (monitor_loop (fun b => runcmd fuel env b tf) script) ∧
    (monitor_loop (fun b => runcmd fuel env b tf) script).trace.head? =
      some (Event.readline "K> ") := by
  obtain ⟨hd, hargc, hnul⟩ := strings_head st tok h0
  have hr : runcmd fuel env buf tf =
      ⟨[Event.cprintf "Unknown command '%s'\n" [Arg.str tok]], some 0⟩ := by
    rw [runcmd_done fuel env buf tf st hst hargc,
      lookup_of_not_mem fuel env _ _ tf (by rw [hd]; exact hnul) commands commands_no_NUL
        (by rw [hd]; exact hne), hd]
  refine ⟨hr, ?_, ?_, monitor_loop_head _ _⟩
  · rw [hr]
    rfl
  · rw [monitor_loop_continue (fun b => runcmd fuel env b tf) buf script 0 (by simp [hr])
      (by omega)]
    simp [hr]

/-- The line `bogus arg1` prints the unknown-command message for `bogus`, and
the loop reads on. -/
theorem runcmd_unknown_witness :
    tokenize sample_env "bogus arg1".toList =
      some (Parse.done ⟨"bogus".toList ++ [NUL] ++ "arg1".toList, [], 2,
        [some 0, some 6, none, none, none, none, none, none, none, none, none, none, none, none,
          none, none]⟩) ∧
    (∀ c ∈ commands, c.name ≠ "bogus".toList) ∧
    (runcmd 0 sample_env "bogus arg1".toList 0 =
        ⟨[Event.cprintf "Unknown command '%s'\n" [Arg.str "bogus".toList]], some 0⟩ ∧
      invokes (runcmd 0 sample_env "bogus arg1".toList 0).trace = [] ∧
      monitor_loop (fun b => runcmd 0 sample_env b 0) (some "bogus arg1".toList :: []) =
        Run.after [Event.readline "K> ",
            Event.cprintf "Unknown command '%s'\n" [Arg.str "bogus".toList]]
          (monitor_loop (fun b => runcmd 0 sample_env b 0) []) ∧
      (monitor_loop (fun b => runcmd 0 sample_env b 0) []).trace.head? =
        some (Event.readline "K> ")) :=
  ⟨by decide, by decide,
    runcmd_unknown 0 sample_env "bogus arg1".toList 0
      ⟨"bogus".toList ++ [NUL] ++ "arg1".toList, [], 2,
        [some 0, some 6, none, none, none, none, none, none, none, none, none, none, none, none,
          none, none]⟩
      "bogus".toList [] (by decide) (by decide) (by decide)⟩

/-- Names are matched case-sensitively: the line `HELP` is an unknown command. -/
theorem runcmd_upper_case_help :
    runcmd 0 sample_env "HELP".toList 0 =
      ⟨[Event.cprintf "Unknown command '%s'\n" [Arg.str "HELP".toList]], some 0⟩ := by
  decide

/-! ## The claims about the loop of `monitor` and the token limit -/

/-- Claim C8 as stated fails: the command interpreter returns -2, which is not
the documented -1, and the loop of `monitor` ends all the same; of the two
lines of the script only the first is read. -/
theorem monitor_loop_breaks_on_minus_two :
    (status_minus_two "help".toList).ret = some (-2) ∧ (-2 : Int) ≠ -1 ∧
    monitor_loop status_minus_two [some "help".toList, some "help".toList] =
      ⟨[Event.readline "K> "], some 0⟩ := by
  decide

/-- Claim C8, amended. After a command has run and returned the status `s`,
the loop of `monitor` ends exactly when `s` is negative (the documented -1
included); with any other status, 0 included, it keeps running: its trace goes
on with that of the loop on the rest of the input, which begins with the next
call of `readline`. -/
theorem monitor_loop_break_iff (run : List Char → Run) (buf : List Char)
    (script : List (Option (List Char))) (s : Int) (h : (run buf).ret = some s) :
    (monitor_loop run (some buf :: script) = ⟨Event.readline "K> " :: (run buf).trace, some 0⟩
      ↔ s < 0) ∧
    (monitor_loop run (some buf :: script) =
        Run.after (Event.readline "K> " :: (run buf).trace) (monitor_loop run script)
      ↔ 0 ≤ s) ∧
    (monitor_loop run script).trace.head? = some (Event.readline "K> ") := by
  have hh := monitor_loop_head run script
  have hne : (monitor_loop run script).trace ≠ [] := by
    intro e
    rw [e] at hh
    simp at hh
  by_cases hs : s < 0
  · have e : monitor_loop run (some buf :: script) =
        ⟨Event.readline "K> " :: (run buf).trace, some 0⟩ := by
      simp [monitor_loop, h, hs]
    refine ⟨⟨fun _ => hs, fun _ => e⟩, ⟨?_, fun h0 => absurd hs (by omega)⟩, hh⟩
    intro e2
    rw [e] at e2
    have := congrArg Run.trace e2
    simp [Run.after] at this
    exact absurd this hne
  · have e := monitor_loop_continue run buf script s h (by omega)
    refine ⟨⟨?_, fun h0 => absurd h0 hs⟩, ⟨fun _ => by omega, fun _ => e⟩, hh⟩
    intro e2
    rw [e] at e2
    have := congrArg Run.trace e2
    simp [Run.after] at this
    exact absurd this hne

/-- The status 0 of `help` keeps the loop running. -/
theorem monitor_loop_break_iff_witness :
    (runcmd 0 sample_env "help".toList 0).ret = some 0 ∧
    ((monitor_loop (fun b => runcmd 0 sample_env b 0) (some "help".toList :: [none]) =
        ⟨Event.readline "K> " :: (runcmd 0 sample_env "help".toList 0).trace, some 0⟩
      ↔ (0 : Int) < 0) ∧
    (monitor_loop (fun b => runcmd 0 sample_env b 0) (some "help".toList :: [none]) =
        Run.after (Event.readline "K> " :: (runcmd 0 sample_env "help".toList 0).trace)
          (monitor_loop (fun b => runcmd 0 sample_env b 0) [none])
      ↔ (0 : Int) ≤ 0) ∧
    (monitor_loop (fun b => runcmd 0 sample_env b 0) [none]).trace.head? =
      some (Event.readline "K> ")) :=
  ⟨by decide,
    monitor_loop_break_iff (fun b => runcmd 0 sample_env b 0) "help".toList [none] 0
      (by decide)⟩

theorem lookup_no_too_many (fuel : Nat) (env : Env) (argc : Nat) (argv : List (List Char))
    (tf : Nat) : ∀ (cs : List Command),
    Event.cprintf "Too many arguments (max %d)\n" [Arg.int 16] ∉
      (lookup fuel env argc argv tf cs).trace := by
  intro cs
  induction cs with
  | nil =>
    simp only [lookup, List.mem_singleton]
    intro h
    injection h with h1 _
    revert h1
    decide
  | cons c cs ih =>
    simp only [lookup]
    split
    · intro h
      simp only [call, Run.after, List.singleton_append, List.mem_cons] at h
      rcases h with h | h
      · cases h
      · have := List.all_eq_true.1 (apply_handler_quiet fuel env c.func argc argv tf) _ h
        simp [of_runcmd] at this
    · exact ih

/-- A line of sixteen runs or more is rejected with the too-many-arguments
message, whatever its first token. -/
theorem runcmd_of_sixteen_runs (fuel : Nat) (env : Env) (buf : List Char) (tf : Nat)
    (h : 16 ≤ (runs (line buf)).length) :
    runcmd fuel env buf tf =
      ⟨[Event.cprintf "Too many arguments (max %d)\n" [Arg.int 16]], some 0⟩ := by
  obtain ⟨st, hst, _⟩ := tokenize_too_many env buf h
  simp only [runcmd, hst]
  rfl

/-- A line of at most fifteen runs is not rejected. -/
theorem runcmd_of_fifteen_runs (fuel : Nat) (env : Env) (buf : List Char) (tf : Nat)
    (h : (runs (line buf)).length ≤ 15) :
    Event.cprintf "Too many arguments (max %d)\n" [Arg.int 16] ∉
      (runcmd fuel env buf tf).trace := by
  obtain ⟨st, hst, _⟩ := tokenize_done env buf h
  by_cases h0 : st.argc = 0
  · simp [runcmd, hst, h0]
  · rw [runcmd_done fuel env buf tf st hst h0]
    exact lookup_no_too_many fuel env _ _ tf commands

/-- Claim C9, which the code breaks. A line of exactly sixteen tokens, the
number the too-many-arguments message gives as the maximum, is not dispatched:
whatever the environment, `runcmd` rejects it with that message and makes no
call through the command table, although its first token is `help`. -/
theorem runcmd_rejects_sixteen_tokens :
    (runs (line sixteen_tokens)).length = 16 ∧
    (runs (line sixteen_tokens)).head? = some "help".toList ∧
    (∀ (fuel : Nat) (env : Env) (tf : Nat),
      runcmd fuel env sixteen_tokens tf =
        ⟨[Event.cprintf "Too many arguments (max %d)\n" [Arg.int 16]], some 0⟩) :=
  ⟨by decide, by decide,
    fun fuel env tf => runcmd_of_sixteen_runs fuel env sixteen_tokens tf (by decide)⟩

/-- Claim C10. Whenever `runcmd` prints the too-many-arguments message, that
message is all it does: the tokenizing loop was left by the `return 0` with 15
pointers stored and the bytes from `buf` on as they were, no call through the
command table is made (whatever the first token), no unknown-command message
is printed, and the status is 0, so the loop of `monitor` goes on to its next
call of `readline`. -/
theorem runcmd_too_many_only (fuel : Nat) (env : Env) (buf : List Char) (tf : Nat)
    (script : List (Option (List Char)))
    (h : Event.cprintf "Too many arguments (max %d)\n" [Arg.int 16] ∈
      (runcmd fuel env buf tf).trace) :
    runcmd fuel env buf tf =
      ⟨[Event.cprintf "Too many arguments (max %d)\n" [Arg.int 16]], some 0⟩ ∧
    (∃ st, tokenize env buf = some (Parse.too_many st) ∧ st.argc = 15 ∧ st.rest <:+ buf) ∧
    invokes (runcmd fuel env buf tf).trace = [] ∧
    (∀ tok, Event.cprintf "Unknown command '%s'\n" [Arg.str tok] ∉
      (runcmd fuel env buf tf).trace) ∧
    monitor_loop (fun b => runcmd fuel env b tf) (some buf :: script) =
      Run.after [Event.readline "K> ",
          Event.cprintf "Too many arguments (max %d)\n" [Arg.int 16]]
        (monitor_loop (fun b => runcmd fuel env b tf) script) ∧
    (monitor_loop (fun b => runcmd fuel env b tf) script).trace.head? =
      some (Event.readline "K> ") := by
  have hst : ∃ st, tokenize env buf = some (Parse.too_many st) ∧ st.argc = 15 ∧
      st.rest <:+ buf := by
    cases ht : tokenize env buf with
    | none => simp [runcmd, ht] at h
    | some r =>
      cases r with
      | too_many st => exact ⟨st, rfl, (tokenize_too_many_inv env buf st ht).2⟩
      | done st =>
        by_cases h0 : st.argc = 0
        · simp [runcmd, ht, h0] at h
        · rw [runcmd_done fuel env buf tf st ht h0] at h
          exact absurd h (lookup_no_too_many fuel env _ _ tf commands)
  obtain ⟨st, ht, hc⟩ := hst
  have hr : runcmd fuel env buf tf =
      ⟨[Event.cprintf "Too many arguments (max %d)\n" [Arg.int 16]], some 0⟩ := by
    simp only [runcmd, ht]
    rfl
  refine ⟨hr, ⟨st, ht, hc⟩, ?_, ?_, ?_, monitor_loop_head _ _⟩
  · rw [hr]
    rfl
  · intro tok hm
    rw [hr] at hm
    simp only [List.mem_singleton] at hm
    injection hm with h1 _
    revert h1
    decide
  · rw [monitor_loop_continue (fun b => runcmd fuel env b tf) buf script 0 (by simp [hr])
      (by omega)]
    simp [hr]

/-- A line of seventeen tokens prints the too-many-arguments message and nothing
else. -/
theorem runcmd_too_many_only_witness :
    Event.cprintf "Too many arguments (max %d)\n" [Arg.int 16] ∈
      (runcmd 0 sample_env "a b c d e f g h i j k l m n o p q".toList 0).trace ∧
    (runcmd 0 sample_env "a b c d e f g h i j k l m n o p q".toList 0 =
      ⟨[Event.cprintf "Too many arguments (max %d)\n" [Arg.int 16]], some 0⟩ ∧
    (∃ st, tokenize sample_env "a b c d e f g h i j k l m n o p q".toList =
      some (Parse.too_many st) ∧ st.argc = 15 ∧
      st.rest <:+ "a b c d e f g h i j k l m n o p q".toList) ∧
    invokes (runcmd 0 sample_env "a b c d e f g h i j k l m n o p q".toList 0).trace = [] ∧
    (∀ tok, Event.cprintf "Unknown command '%s'\n" [Arg.str tok] ∉
      (runcmd 0 sample_env "a b c d e f g h i j k l m n o p q".toList 0).trace) ∧
    monitor_loop (fun b => runcmd 0 sample_env b 0)
        (some "a b c d e f g h i j k l m n o p q".toList :: []) =
      Run.after [Event.readline "K> ",
          Event.cprintf "Too many arguments (max %d)\n" [Arg.int 16]]
        (monitor_loop (fun b => runcmd 0 sample_env b 0) []) ∧
    (monitor_loop (fun b => runcmd 0 sample_env b 0) []).trace.head? =
      some (Event.readline "K> ")) :=
  ⟨by decide,
    runcmd_too_many_only 0 sample_env "a b c d e f g h i j k l m n o p q".toList 0 []
      (by decide)⟩

/-! ## Empty lines, the backtrace as printed, and `help` -/

theorem runs_of_white : ∀ (l : List Char), (∀ c ∈ l, isWhite c = true) → runs l = [] := by
  intro l
  induction l with
  | nil => intro _; exact runs_nil
  | cons c r ih =>
    intro h
    rw [runs_cons_white c r (h c (List.mem_cons_self _ _))]
    exact ih (fun d hd => h d (List.mem_cons_of_mem _ hd))

/-- Claim C11. For a line that is empty or holds only whitespace characters
(tab, carriage return, newline, space), the tokenizing loop of `runcmd` ends
with `argc = 0` and no token, and `runcmd` does nothing at all: no call through
the command table, no `cprintf`, status 0. -/
theorem runcmd_empty_line (fuel : Nat) (env : Env) (buf : List Char) (tf : Nat)
    (h : ∀ c ∈ line buf, isWhite c = true) :
    runcmd fuel env buf tf = ⟨[], some 0⟩ ∧
    invokes (runcmd fuel env buf tf).trace = [] ∧
    prints (runcmd fuel env buf tf).trace = [] ∧
    ∃ st, tokenize env buf = some (Parse.done st) ∧ st.argc = 0 ∧ st.strings = [] := by
  have hr : runs (line buf) = [] := runs_of_white _ h
  obtain ⟨st, hst, hc, _, _, _, hs⟩ := tokenize_done env buf (by simp [hr])
  rw [hr] at hc hs
  have hrun : runcmd fuel env buf tf = ⟨[], some 0⟩ := by
    simp [runcmd, hst, hc]
  refine ⟨hrun, ?_, ?_, st, hst, hc, hs⟩
  · rw [hrun]; rfl
  · rw [hrun]; rfl

/-- A line of blanks, a tab, a carriage return and a newline does nothing, and
so does the empty line. -/
theorem runcmd_empty_line_witness :
    (∀ c ∈ line [Char.ofNat 32, Char.ofNat 9, Char.ofNat 32, Char.ofNat 13, Char.ofNat 10],
      isWhite c = true) ∧
    (runcmd 0 sample_env [Char.ofNat 32, Char.ofNat 9, Char.ofNat 32, Char.ofNat 13, Char.ofNat 10]
        0 = ⟨[], some 0⟩ ∧
      invokes (runcmd 0 sample_env
        [Char.ofNat 32, Char.ofNat 9, Char.ofNat 32, Char.ofNat 13, Char.ofNat 10] 0).trace = [] ∧
      prints (runcmd 0 sample_env
        [Char.ofNat 32, Char.ofNat 9, Char.ofNat 32, Char.ofNat 13, Char.ofNat 10] 0).trace = [] ∧
      ∃ st, tokenize sample_env
          [Char.ofNat 32, Char.ofNat 9, Char.ofNat 32, Char.ofNat 13, Char.ofNat 10] =
        some (Parse.done st) ∧ st.argc = 0 ∧ st.strings = []) ∧
    runcmd 0 sample_env [] 0 = ⟨[], some 0⟩ :=
  ⟨by decide,
    runcmd_empty_line 0 sample_env
      [Char.ofNat 32, Char.ofNat 9, Char.ofNat 32, Char.ofNat 13, Char.ofNat 10] 0 (by decide),
    (runcmd_empty_line 0 sample_env [] 0 (by decide)).1⟩

/-- A line that tokenizes without error and starts with the name of a table
entry runs as the call of that entry. -/
theorem runcmd_of_command (fuel : Nat) (env : Env) (buf : List Char) (tf : Nat) (st : Tok)
    (c : Command) (hst : tokenize env buf = some (Parse.done st)) (hc : c ∈ commands)
    (h0 : st.strings.head? = some c.name) :
    runcmd fuel env buf tf =
      Run.after [Event.invoke c.func st.argc st.strings tf]
        (apply_handler fuel env c.func st.argc st.strings tf) := by
  obtain ⟨hd, hargc, _⟩ := strings_head st c.name h0
  rw [runcmd_done fuel env buf tf st hst hargc, lookup_of_mem fuel env _ _ tf c hc hd]
  rfl

/-- The line that is just the name of a table entry runs as the call of that
entry with `argc = 1`. -/
theorem runcmd_of_name (fuel : Nat) (env : Env) (tf : Nat) (c : Command) (hc : c ∈ commands) :
    runcmd fuel env c.name tf =
      Run.after [Event.invoke c.func 1 [c.name] tf]
        (apply_handler fuel env c.func 1 [c.name] tf) := by
  have hruns : runs (line c.name) = [c.name] := by
    revert c
    decide
  obtain ⟨st, hst, hargc, _, _, _, hs⟩ := tokenize_done env c.name (by rw [hruns]; simp)
  rw [hruns] at hargc hs
  have := runcmd_of_command fuel env c.name tf st c hst hc (by rw [hs]; rfl)
  rw [this, hs, hargc]
  rfl

/-- Claim C13. The command `mon_help` prints exactly one line for each entry of
the command table, in table order, the line of an entry being its name, then
` - `, then its description; it returns 0. The input line `help` runs
`mon_help` and nothing else, so it prints just these lines. -/
theorem mon_help_output (fuel : Nat) (env : Env) (argc : Nat) (argv : List (List Char))
    (tf : Nat) :
    mon_help argc argv tf =
      ⟨[Event.cprintf "%s - %s\n"
          [Arg.str "help".toList, Arg.str "Display this list of commands".toList],
        Event.cprintf "%s - %s\n"
          [Arg.str "kerninfo".toList, Arg.str "Display information about the kernel".toList],
        Event.cprintf "%s - %s\n"
          [Arg.str "backtrace".toList,
           Arg.str "Display a listing of function call frames".toList]], some 0⟩ ∧
    (mon_help argc argv tf).trace =
      commands.map (fun c => Event.cprintf "%s - %s\n" [Arg.str c.name, Arg.str c.desc]) ∧
    (mon_help argc argv tf).trace.map printed_text =
      commands.map (fun c => c.name ++ " - ".toList ++ c.desc ++ [Char.ofNat 10]) ∧
    runcmd fuel env "help".toList tf =
      Run.after [Event.invoke Handler.mon_help 1 ["help".toList] tf]
        (mon_help 1 ["help".toList] tf) ∧
    prints (runcmd fuel env "help".toList tf).trace = (mon_help argc argv tf).trace ∧
    (runcmd fuel env "help".toList tf).ret = some 0 := by
  have hr := runcmd_of_name fuel env tf
    ⟨"help".toList, "Display this list of commands".toList, Handler.mon_help⟩ (by decide)
  refine ⟨rfl, rfl, ?_, hr, ?_, ?_⟩
  · have e : (mon_help argc argv tf).trace = (mon_help 0 [] 0).trace := rfl
    rw [e]
    decide
  · have e : runcmd fuel env "help".toList tf =
        Run.after [Event.invoke Handler.mon_help 1 ["help".toList] tf]
          (mon_help 1 ["help".toList] tf) := hr
    rw [e]
    rfl
  · have e : runcmd fuel env "help".toList tf =
        Run.after [Event.invoke Handler.mon_help 1 ["help".toList] tf]
          (mon_help 1 ["help".toList] tf) := hr
    rw [e]
    rfl

/-- Claim C14. When `readline` returns `NULL`, the loop of `monitor` does
nothing in that pass (no command is run, nothing is printed) and calls
`readline` again: the run is the call of `readline` followed by the run of the
loop on the rest of the input, which begins with the next call of `readline`,
so whether the loop ever ends does not depend on the absent read; a run of
absent reads alone is a row of calls of `readline` that does not end. -/
theorem monitor_loop_null_read (run : List Char → Run) (script : List (Option (List Char))) :
    monitor_loop run (none :: script) =
      Run.after [Event.readline "K> "] (monitor_loop run script) ∧
    (monitor_loop run script).trace.head? = some (Event.readline "K> ") ∧
    (monitor_loop run (none :: script)).ret = (monitor_loop run script).ret ∧
    prints (monitor_loop run (none :: script)).trace = prints (monitor_loop run script).trace ∧
    invokes (monitor_loop run (none :: script)).trace =
      invokes (monitor_loop run script).trace ∧
    (∀ n, monitor_loop run (List.replicate n none) =
      ⟨List.replicate (n + 1) (Event.readline "K> "), none⟩) := by
  refine ⟨rfl, monitor_loop_head run script, rfl, rfl, rfl, ?_⟩
  intro n
  induction n with
  | zero => rfl
  | succ m ih =>
    simp only [List.replicate_succ, monitor_loop, ih, Run.after]
    rfl

theorem line_append_drop (buf : List Char) : line buf ++ buf.drop (line buf).length = buf := by
  induction buf with
  | nil => rfl
  | cons c r ih =>
    by_cases h : c = NUL
    · subst h
      simp [line_cons_NUL]
    · rw [line_cons_of_ne c r h]
      simp only [List.length_cons, List.drop_succ_cons, List.cons_append]
      rw [ih]

theorem zap_length (buf : List Char) : (zap buf).length = buf.length := by
  have h := congrArg List.length (line_append_drop buf)
  simp only [List.length_append] at h
  simp only [zap, List.length_append, List.length_map]
  exact h

theorem line_of_no_NUL (buf : List Char) (h : NUL ∉ buf) : line buf = buf := by
  induction buf with
  | nil => rfl
  | cons c r ih =>
    have hc : c ≠ NUL := fun e => h (by simp [e])
    rw [line_cons_of_ne c r hc, ih (fun hr => h (List.mem_cons_of_mem _ hr))]

theorem zap_of_no_NUL (buf : List Char) (h : NUL ∉ buf) :
    zap buf = buf.map (fun c => if isWhite c then NUL else c) := by
  simp [zap, line_of_no_NUL buf h]

/-- After a `break` every one of the first `argc` entries of `argv` points into
the buffer, to the run it stands for, which is followed there by a terminator
or by the end of the buffer. -/
theorem argv_slices (env : Env) (buf : List Char) (st : Tok)
    (hst : tokenize env buf = some (Parse.done st)) (i : Nat) (hi : i < st.argc) :
    ∃ p t tail, st.argv[i]? = some (some p) ∧ (runs (line buf))[i]? = some t ∧
      st.buffer.drop p = t ++ tail ∧ Tok.cur tail = NUL ∧ NUL ∉ t ∧ t ≠ [] := by
  obtain ⟨hn, hargc, _, hlen, _, hs⟩ := tokenize_done_inv env buf st hst
  have hil : i < st.argv.length := by rw [hlen]; simp [MAXARGS]; omega
  have hir : i < (runs (line buf)).length := by omega
  have hsi : st.strings[i]? = (runs (line buf))[i]? := by rw [hs]
  simp only [Tok.strings, List.getElem?_map, List.getElem?_take_of_lt hi,
    List.getElem?_eq_getElem hil, List.getElem?_eq_getElem hir, Option.map_some'] at hsi
  have hne : (runs (line buf))[i] ≠ [] :=
    (runs_line_spec buf _ (List.getElem_mem hir)).1
  cases ha : st.argv[i] with
  | none =>
    rw [ha] at hsi
    simp only [Option.some.injEq] at hsi
    exact absurd hsi.symm hne
  | some p =>
    rw [ha] at hsi
    simp only [Option.some.injEq] at hsi
    refine ⟨p, cstr st.buffer p, (st.buffer.drop p).dropWhile (fun c => c != NUL), ?_, ?_, ?_, ?_,
      cstr_no_NUL _ _, ?_⟩
    · rw [List.getElem?_eq_getElem hil, ha]
    · rw [List.getElem?_eq_getElem hir, hsi]
    · simp [cstr]
    · cases hd : (st.buffer.drop p).dropWhile (fun c => c != NUL) with
      | nil => rfl
      | cons c r =>
        have := List.head_dropWhile_not (fun c => c != NUL) (st.buffer.drop p) (by simp [hd])
        simp only [hd, List.head_cons] at this
        simpa [Tok.cur] using this
    · rw [hsi]
      exact hne

/-- Claim C16. When `runcmd` has tokenized a line without error, the buffer is
the original buffer with every whitespace byte of the line (tab, carriage
return, newline, space before the terminator) replaced by the terminator and
every other byte unchanged: same length, the line mapped byte by byte, the
bytes from the terminator on as they were. Each `argv[i]`, `i < argc`, points
into this buffer, at a token that is followed by a terminator there (or by the
end of the buffer, where the terminator of the line is). -/
theorem tokenize_in_place (env : Env) (buf : List Char) (st : Tok)
    (hst : tokenize env buf = some (Parse.done st)) :
    st.buffer = (line buf).map (fun c => if isWhite c then NUL else c) ++
      buf.drop (line buf).length ∧
    buf = line buf ++ buf.drop (line buf).length ∧
    st.buffer.length = buf.length ∧
    (NUL ∉ buf → st.buffer = buf.map (fun c => if isWhite c then NUL else c)) ∧
    (∀ i, i < st.argc → ∃ p t tail, st.argv[i]? = some (some p) ∧
      (runs (line buf))[i]? = some t ∧ st.buffer.drop p = t ++ tail ∧ Tok.cur tail = NUL ∧
      NUL ∉ t ∧ t ≠ []) := by
  have hb : st.buffer = zap buf := (tokenize_done_inv env buf st hst).2.2.1
  refine ⟨hb, (line_append_drop buf).symm, by rw [hb, zap_length], ?_, ?_⟩
  · intro h
    rw [hb, zap_of_no_NUL buf h]
  · intro i hi
    exact argv_slices env buf st hst i hi

/-- The sample line `ls_line` becomes `ls`, two terminators, `-l` and a
terminator, with `argv[0]` and `argv[1]` pointing at the two tokens. -/
theorem tokenize_in_place_witness :
    tokenize sample_env ls_line = some (Parse.done ls_tok) ∧
    (ls_tok.buffer = (line ls_line).map (fun c => if isWhite c then NUL else c) ++
      ls_line.drop (line ls_line).length ∧
    ls_line = line ls_line ++ ls_line.drop (line ls_line).length ∧
    ls_tok.buffer.length = ls_line.length ∧
    (NUL ∉ ls_line → ls_tok.buffer = ls_line.map (fun c => if isWhite c then NUL else c)) ∧
    (∀ i, i < ls_tok.argc → ∃ p t tail, ls_tok.argv[i]? = some (some p) ∧
      (runs (line ls_line))[i]? = some t ∧ ls_tok.buffer.drop p = t ++ tail ∧
      Tok.cur tail = NUL ∧ NUL ∉ t ∧ t ≠ [])) ∧
    NUL ∉ ls_line ∧
    ls_tok.buffer = "ls".toList ++ [NUL, NUL] ++ "-l".toList ++ [NUL] :=
  ⟨by decide, tokenize_in_place sample_env ls_line ls_tok (by decide), by decide, by decide⟩

/-! ## Kerninfo, the end of the session, and cyclic stacks -/

/-- Claim C17. What `mon_kerninfo` prints and returns is fixed by the linker
symbols `_start`, `entry`, `etext`, `edata`, `end` and the constant `KERNBASE`
(with the macro `ROUNDUP`): two environments that agree on them give the same
run, whatever the memory, the stack, the resolver and the arguments of the
call; the status is 0; and the line `kerninfo` entered twice in a row prints
the same seven lines both times. -/
theorem mon_kerninfo_layout_only (fuel : Nat) (env1 env2 : Env) (argc1 argc2 : Nat)
    (argv1 argv2 : List (List Char)) (tf1 tf2 : Nat)
    (h_start : env1._start = env2._start) (h_entry : env1.entry = env2.entry)
    (h_etext : env1.etext = env2.etext) (h_edata : env1.edata = env2.edata)
    (h_end : env1.end_ = env2.end_) (h_base : env1.KERNBASE = env2.KERNBASE)
    (h_roundup : env1.ROUNDUP = env2.ROUNDUP) :
    mon_kerninfo env1 argc1 argv1 tf1 = mon_kerninfo env2 argc2 argv2 tf2 ∧
    (mon_kerninfo env1 argc1 argv1 tf1).ret = some 0 ∧
    (mon_kerninfo env1 argc1 argv1 tf1).trace.length = 7 ∧
    prints (monitor_loop (fun b => runcmd fuel env1 b tf1)
        [some "kerninfo".toList, some "kerninfo".toList]).trace =
      (mon_kerninfo env1 argc1 argv1 tf1).trace ++ (mon_kerninfo env1 argc1 argv1 tf1).trace ∧
    (monitor_loop (fun b => runcmd fuel env1 b tf1)
        [some "kerninfo".toList, some "kerninfo".toList]).trace =
      Event.readline "K> " :: Event.invoke Handler.mon_kerninfo 1 ["kerninfo".toList] tf1 ::
        (mon_kerninfo env1 argc1 argv1 tf1).trace ++
      Event.readline "K> " :: Event.invoke Handler.mon_kerninfo 1 ["kerninfo".toList] tf1 ::
        (mon_kerninfo env1 argc1 argv1 tf1).trace ++ [Event.readline "K> "] := by
  have hr : runcmd fuel env1 "kerninfo".toList tf1 =
      Run.after [Event.invoke Handler.mon_kerninfo 1 ["kerninfo".toList] tf1]
        (mon_kerninfo env1 argc1 argv1 tf1) :=
    runcmd_of_name fuel env1 tf1
      ⟨"kerninfo".toList, "Display information about the kernel".toList, Handler.mon_kerninfo⟩
      (by decide)
  have hret : (runcmd fuel env1 "kerninfo".toList tf1).ret = some 0 := by rw [hr]; rfl
  have hloop : (monitor_loop (fun b => runcmd fuel env1 b tf1)
        [some "kerninfo".toList, some "kerninfo".toList]).trace =
      Event.readline "K> " :: Event.invoke Handler.mon_kerninfo 1 ["kerninfo".toList] tf1 ::
        (mon_kerninfo env1 argc1 argv1 tf1).trace ++
      Event.readline "K> " :: Event.invoke Handler.mon_kerninfo 1 ["kerninfo".toList] tf1 ::
        (mon_kerninfo env1 argc1 argv1 tf1).trace ++ [Event.readline "K> "] := by
    rw [monitor_loop_continue (fun b => runcmd fuel env1 b tf1) "kerninfo".toList _ 0 hret
      (by omega),
      monitor_loop_continue (fun b => runcmd fuel env1 b tf1) "kerninfo".toList _ 0 hret
      (by omega)]
    simp only [hr, Run.after, monitor_loop]
    simp
  refine ⟨?_, rfl, rfl, ?_, hloop⟩
  · simp only [mon_kerninfo, h_start, h_entry, h_etext, h_edata, h_end, h_base, h_roundup]
  · rw [hloop]
    simp only [prints_append]
    simp [prints, mon_kerninfo]

/-- The two-frame and the three-frame sample environments have the same image
layout, so `kerninfo` prints the same in both. -/
theorem mon_kerninfo_layout_only_witness :
    sample_env._start = three_frame_env._start ∧ sample_env.entry = three_frame_env.entry ∧
    sample_env.etext = three_frame_env.etext ∧ sample_env.edata = three_frame_env.edata ∧
    sample_env.end_ = three_frame_env.end_ ∧ sample_env.KERNBASE = three_frame_env.KERNBASE ∧
    sample_env.ROUNDUP = three_frame_env.ROUNDUP ∧
    (mon_kerninfo sample_env 1 ["kerninfo".toList] 0 =
        mon_kerninfo three_frame_env 2 ["kerninfo".toList, "x".toList] 9 ∧
      (mon_kerninfo sample_env 1 ["kerninfo".toList] 0).ret = some 0 ∧
      (mon_kerninfo sample_env 1 ["kerninfo".toList] 0).trace.length = 7 ∧
      prints (monitor_loop (fun b => runcmd 0 sample_env b 0)
          [some "kerninfo".toList, some "kerninfo".toList]).trace =
        (mon_kerninfo sample_env 1 ["kerninfo".toList] 0).trace ++
          (mon_kerninfo sample_env 1 ["kerninfo".toList] 0).trace ∧
      (monitor_loop (fun b => runcmd 0 sample_env b 0)
          [some "kerninfo".toList, some "kerninfo".toList]).trace =
        Event.readline "K> " :: Event.invoke Handler.mon_kerninfo 1 ["kerninfo".toList] 0 ::
          (mon_kerninfo sample_env 1 ["kerninfo".toList] 0).trace ++
        Event.readline "K> " :: Event.invoke Handler.mon_kerninfo 1 ["kerninfo".toList] 0 ::
          (mon_kerninfo sample_env 1 ["kerninfo".toList] 0).trace ++ [Event.readline "K> "]) :=
  ⟨rfl, rfl, rfl, rfl, rfl, rfl, rfl,
    mon_kerninfo_layout_only 0 sample_env three_frame_env 1 2 ["kerninfo".toList]
      ["kerninfo".toList, "x".toList] 0 9 rfl rfl rfl rfl rfl rfl rfl⟩

theorem apply_handler_ret (fuel : Nat) (env : Env) (h : Handler) (argc : Nat)
    (argv : List (List Char)) (tf : Nat) :
    (apply_handler fuel env h argc argv tf).ret = none ∨
      (apply_handler fuel env h argc argv tf).ret = some 0 := by
  cases h with
  | mon_help => exact Or.inr rfl
  | mon_kerninfo => exact Or.inr rfl
  | mon_backtrace =>
    exact Or.inl (mon_backtrace_ret fuel env argc argv tf)

theorem lookup_ret (fuel : Nat) (env : Env) (argc : Nat) (argv : List (List Char)) (tf : Nat) :
    ∀ (cs : List Command),
    (lookup fuel env argc argv tf cs).ret = none ∨
      (lookup fuel env argc argv tf cs).ret = some 0 := by
  intro cs
  induction cs with
  | nil => exact Or.inr rfl
  | cons c cs ih =>
    simp only [lookup]
    split
    · simp only [call, Run.after]
      exact apply_handler_ret fuel env c.func argc argv tf
    · exact ih

theorem runcmd_ret (fuel : Nat) (env : Env) (buf : List Char) (tf : Nat) :
    (runcmd fuel env buf tf).ret = none ∨ (runcmd fuel env buf tf).ret = some 0 := by
  cases ht : tokenize env buf with
  | none => simp [runcmd, ht]
  | some r =>
    cases r with
    | too_many st => simp [runcmd, ht]
    | done st =>
      by_cases h0 : st.argc = 0
      · simp [runcmd, ht, h0]
      · rw [runcmd_done fuel env buf tf st ht h0]
        exact lookup_ret fuel env _ _ tf commands

/-- A loop whose command interpreter never returns a negative status never
reaches its `break`. -/
theorem monitor_loop_no_break (run : List Char → Run)
    (h : ∀ buf, (run buf).ret = none ∨ (run buf).ret = some 0) :
    ∀ (script : List (Option (List Char))), (monitor_loop run script).ret = none := by
  intro script
  induction script with
  | nil => rfl
  | cons a more ih =>
    cases a with
    | none => simpa [monitor_loop, Run.after] using ih
    | some buf =>
      rcases h buf with hb | hb
      · simp [monitor_loop, hb, Run.after]
      · simp [monitor_loop, hb, Run.after, ih]

/-- A run of `runcmd` that does not return is inside `backtrace`. -/
theorem runcmd_ret_none (fuel : Nat) (env : Env) (buf : List Char) (tf : Nat)
    (h : (runcmd fuel env buf tf).ret = none) :
    (runs (line buf)).head? = some "backtrace".toList := by
  cases ht : tokenize env buf with
  | none =>
    by_cases hn : (runs (line buf)).length ≤ 15
    · obtain ⟨st, hst, _⟩ := tokenize_done env buf hn
      rw [hst] at ht
      cases ht
    · obtain ⟨st, hst, _⟩ := tokenize_too_many env buf (by omega)
      rw [hst] at ht
      cases ht
  | some r =>
    cases r with
    | too_many st => simp [runcmd, ht] at h
    | done st =>
      have hs := (tokenize_done_inv env buf st ht).2.2.2.2.2
      by_cases h0 : st.argc = 0
      · simp [runcmd, ht, h0] at h
      · rw [runcmd_done fuel env buf tf st ht h0] at h
        have hnul : NUL ∉ st.strings.headD [] := by
          cases hh : st.strings with
          | nil => simp
          | cons a l =>
            simp only [List.headD_cons]
            exact strings_no_NUL st a (by rw [hh]; exact List.mem_cons_self _ _)
        have hl : lookup fuel env st.argc st.strings tf commands =
            if strcmp (st.strings.headD []) "help".toList = 0 then
              call fuel env Handler.mon_help st.argc st.strings tf
            else if strcmp (st.strings.headD []) "kerninfo".toList = 0 then
              call fuel env Handler.mon_kerninfo st.argc st.strings tf
            else if strcmp (st.strings.headD []) "backtrace".toList = 0 then
              call fuel env Handler.mon_backtrace st.argc st.strings tf
            else ⟨[Event.cprintf "Unknown command '%s'\n" [Arg.str (st.strings.headD [])]],
              some 0⟩ := rfl
        rw [hl] at h
        by_cases e1 : strcmp (st.strings.headD []) "help".toList = 0
        · rw [if_pos e1] at h
          have h1 : some (0 : Int) = none := h
          cases h1
        · rw [if_neg e1] at h
          by_cases e2 : strcmp (st.strings.headD []) "kerninfo".toList = 0
          · rw [if_pos e2] at h
            have h1 : some (0 : Int) = none := h
            cases h1
          · rw [if_neg e2] at h
            by_cases e3 : strcmp (st.strings.headD []) "backtrace".toList = 0
            · rw [strcmp_eq_zero _ _ hnul (by decide)] at e3
              rw [← hs]
              cases hh : st.strings with
              | nil =>
                rw [hh] at e3
                exact absurd e3 (by decide)
              | cons a l =>
                rw [hh] at e3
                simp only [List.headD_cons] at e3
                simp [e3]
            · rw [if_neg e3] at h
              have h1 : some (0 : Int) = none := h
              cases h1

/-- Claim C18. With the built-in command table `runcmd` returns 0 whenever it
returns, for every line and trap frame (it can fail to return only inside the
walk of `backtrace`), so for every sequence of results of `readline` the loop
of `monitor` never reaches its `break` and `monitor` never returns. -/
theorem session_never_ends (fuel : Nat) (env : Env) (buf : List Char) (tf : Nat)
    (script : List (Option (List Char))) :
    ((runcmd fuel env buf tf).ret = none ∨ (runcmd fuel env buf tf).ret = some 0) ∧
    ((runcmd fuel env buf tf).ret = none → (runs (line buf)).head? = some "backtrace".toList) ∧
    (monitor_loop (fun b => runcmd fuel env b tf) script).ret = none ∧
    (monitor fuel env tf script).ret = none :=
  ⟨runcmd_ret fuel env buf tf, runcmd_ret_none fuel env buf tf,
    monitor_loop_no_break _ (fun b => runcmd_ret fuel env b tf) script,
    by
      simp only [monitor, Run.after]
      exact monitor_loop_no_break _ (fun b => runcmd_ret fuel env b tf) script⟩

/-- On the cyclic sample stack `backtrace` does not return within 5 loop tests,
every other sample line returns 0, and the session goes on. -/
theorem session_never_ends_witness :
    (runcmd 5 cyclic_env "backtrace".toList 0).ret = none ∧
    (((runcmd 5 cyclic_env "backtrace".toList 0).ret = none ∨
        (runcmd 5 cyclic_env "backtrace".toList 0).ret = some 0) ∧
      ((runcmd 5 cyclic_env "backtrace".toList 0).ret = none →
        (runs (line "backtrace".toList)).head? = some "backtrace".toList) ∧
      (monitor_loop (fun b => runcmd 5 cyclic_env b 0)
        [some "help".toList, none, some "bogus".toList]).ret = none ∧
      (monitor 5 cyclic_env 0 [some "help".toList, none, some "bogus".toList]).ret = none) ∧
    (runcmd 5 cyclic_env "help".toList 0).ret = some 0 :=
  ⟨by decide,
    session_never_ends 5 cyclic_env "backtrace".toList 0
      [some "help".toList, none, some "bogus".toList],
    by decide⟩

/-- A chain that never reaches null is walked for as long as there is fuel, and
the loop makes no read through the null pointer. -/
theorem walk_of_cycle (env : Env) : ∀ (fuel fp eip : Nat) (arg : List Nat),
    (∀ j, (next_fp env.mem)^[j] fp ≠ 0) →
    walk env.mem fuel fp = (List.range fuel).map (fun j => (next_fp env.mem)^[j] fp) ∧
    (∀ i, Event.load 0 i ∉ (backtrace_loop env fuel fp eip arg).trace) := by
  intro fuel
  induction fuel with
  | zero => intro fp eip arg _; exact ⟨rfl, by simp [backtrace_loop]⟩
  | succ n ih =>
    intro fp eip arg h
    have h0 : fp ≠ 0 := by simpa using h 0
    have h2 : load env.mem fp 0 ≠ 0 := by simpa [next_fp] using h 1
    have h1 : ∀ j, (next_fp env.mem)^[j] (next_fp env.mem fp) ≠ 0 := by
      intro j
      have := h (j + 1)
      simpa [Function.iterate_succ_apply] using this
    have ih1 := ih (next_fp env.mem fp) (load env.mem (next_fp env.mem fp) 1)
      (arg_words env.mem (next_fp env.mem fp)) h1
    constructor
    · simp only [walk, h0, if_false, ih1.1, List.range_succ_eq_map, List.map_cons, List.map_map]
      simp [Function.comp_def, Function.iterate_succ_apply]
    · intro i
      have ih2 := ih1.2 i
      simp only [next_fp] at ih2
      simp only [backtrace_loop, h0, h2, if_false, Run.after]
      simp [arg_loads, ih2, Ne.symm h0, Ne.symm h2]
      intro x _ hx
      exact absurd hx h2

/-- More fuel only extends the trace of the walk. -/
theorem backtrace_loop_extends (env : Env) : ∀ (n m ebp eip : Nat) (arg : List Nat), n ≤ m →
    (backtrace_loop env n ebp eip arg).trace <+: (backtrace_loop env m ebp eip arg).trace := by
  intro n
  induction n with
  | zero => intro m ebp eip arg _; exact List.nil_prefix
  | succ k ih =>
    intro m ebp eip arg hm
    obtain ⟨m1, rfl⟩ : ∃ m1, m = m1 + 1 := ⟨m - 1, by omega⟩
    by_cases h : ebp = 0
    · simp [backtrace_loop, h]
    · by_cases h1 : load env.mem ebp 0 = 0
      · simp [backtrace_loop, h, h1, Run.after]
      · simp only [backtrace_loop, h, h1, if_false, Run.after]
        exact (List.prefix_append_right_inj _).2
          ((List.prefix_append_right_inj _).2 (ih m1 _ _ _ (by omega)))

/-- Claim C19. When the chain of saved frame pointers that starts at the
initial frame pointer never reaches null, `mon_backtrace` does not leave its
loop: however many loop tests it is given, it has not returned, after `n` of
them it has printed `n` backtrace entries (those of the first `n` members of
the chain), and a longer run only goes on from there; no run comes to a read
through the null pointer, so the fuel alone cuts it off. -/
theorem mon_backtrace_cyclic (env : Env) (n m argc : Nat) (argv : List (List Char)) (tf : Nat)
    (h : ∀ j, (next_fp (call_mem env argc tf))^[j] (env.read_ebp % WORD) ≠ 0) (hnm : n ≤ m) :
    (mon_backtrace n env argc argv tf).ret = none ∧
    (frames_of (prints (mon_backtrace n env argc argv tf).trace)).length = n ∧
    (frames_of (prints (mon_backtrace n env argc argv tf).trace)).map Frame.frame_pointer =
      (List.range n).map (fun j => (next_fp (call_mem env argc tf))^[j] (env.read_ebp % WORD)) ∧
    (mon_backtrace n env argc argv tf).trace <+: (mon_backtrace m env argc argv tf).trace ∧
    n ≤ (frames_of (prints (mon_backtrace m env argc argv tf).trace)).length ∧
    (∀ i, Event.load 0 i ∉ (mon_backtrace n env argc argv tf).trace) := by
  have hm : (env.in_call argc tf).mem = call_mem env argc tf := rfl
  have h0 : env.read_ebp % WORD ≠ 0 := by simpa using h 0
  have hw := fun k => walk_of_cycle (env.in_call argc tf) k (env.read_ebp % WORD)
    (load (call_mem env argc tf) (env.read_ebp % WORD) 1)
    (arg_words (call_mem env argc tf) (env.read_ebp % WORD)) (by rw [hm]; exact h)
  rw [hm] at hw
  refine ⟨mon_backtrace_ret _ _ _ _ _, ?_, ?_, ?_, ?_, ?_⟩
  · rw [frames_mon_backtrace, (hw n).1]
    simp
  · rw [frames_mon_backtrace, (hw n).1]
    simp [frame_at, Function.comp_def]
  · simp only [mon_backtrace, Run.after, h0, if_false]
    exact (List.prefix_append_right_inj _).2
      ((List.prefix_append_right_inj _).2 (backtrace_loop_extends _ n m _ _ _ hnm))
  · rw [frames_mon_backtrace, (hw m).1]
    simpa using hnm
  · intro i
    have h2 := (hw n).2 i
    simp only [mon_backtrace, Run.after, h0, if_false]
    simp [arg_loads, h2, Ne.symm h0]
    intro x _ hx
    exact absurd hx h0

theorem next_fp_cyclic_env :
    ∀ j, (next_fp (call_mem cyclic_env 1 0))^[j] (cyclic_env.read_ebp % WORD) ≠ 0 := by
  intro j
  have h : ∀ k, (next_fp (call_mem cyclic_env 1 0))^[k] 4096 = 4096 := by
    intro k
    induction k with
    | zero => rfl
    | succ k ih =>
      rw [Function.iterate_succ_apply]
      exact ih
  have e : cyclic_env.read_ebp % WORD = 4096 := by decide
  rw [e, h j]
  decide

/-- On the sample stack whose frame at 4096 points to itself, three loop tests
give three entries for the frame pointer 4096 and no return. -/
theorem mon_backtrace_cyclic_witness :
    (∀ j, (next_fp (call_mem cyclic_env 1 0))^[j] (cyclic_env.read_ebp % WORD) ≠ 0) ∧ 3 ≤ 5 ∧
    ((mon_backtrace 3 cyclic_env 1 ["backtrace".toList] 0).ret = none ∧
    (frames_of (prints (mon_backtrace 3 cyclic_env 1 ["backtrace".toList] 0).trace)).length = 3 ∧
    (frames_of (prints (mon_backtrace 3 cyclic_env 1 ["backtrace".toList] 0).trace)).map
        Frame.frame_pointer =
      (List.range 3).map
        (fun j => (next_fp (call_mem cyclic_env 1 0))^[j] (cyclic_env.read_ebp % WORD)) ∧
    (mon_backtrace 3 cyclic_env 1 ["backtrace".toList] 0).trace <+:
      (mon_backtrace 5 cyclic_env 1 ["backtrace".toList] 0).trace ∧
    3 ≤ (frames_of (prints (mon_backtrace 5 cyclic_env 1 ["backtrace".toList] 0).trace)).length ∧
    (∀ i, Event.load 0 i ∉ (mon_backtrace 3 cyclic_env 1 ["backtrace".toList] 0).trace)) ∧
    (frames_of (prints (mon_backtrace 3 cyclic_env 1 ["backtrace".toList] 0).trace)).map
        Frame.frame_pointer = [4096, 4096, 4096] :=
  ⟨next_fp_cyclic_env, by decide,
    mon_backtrace_cyclic cyclic_env 3 5 1 ["backtrace".toList] 0 next_fp_cyclic_env (by decide),
    by decide⟩

/-- The recursion `tokenize_loop` is the repetition of `tok_step`. -/
theorem tokenize_loop_step (fuel : Nat) (st : Tok) :
    tokenize_loop (fuel + 1) st =
      match tok_step st with
      | Sum.inl r => some r
      | Sum.inr st1 => tokenize_loop fuel st1 := by
  simp only [tokenize_loop, tok_step]
  split_ifs <;> rfl

theorem tokenize_eq (env : Env) (buf : List Char) :
    tokenize env buf =
      match tokenize_loop (buf.length + 1) (tok_init env buf) with
      | some (Parse.done st) =>
        some (Parse.done ⟨st.pre, st.rest, st.argc, st.argv.set st.argc none⟩)
      | r => r := rfl

/-- A pass that goes on has found `argc` below `MAXARGS - 1`, has written
`argv[argc]`, and has raised `argc` by one. -/
theorem tok_step_inr (st st1 : Tok) (h : tok_step st = Sum.inr st1) :
    st.argc ≠ MAXARGS - 1 ∧ st1.argc = st.argc + 1 ∧
      ∃ p, st1.argv = st.argv.set st.argc (some p) := by
  simp only [tok_step] at h
  split_ifs at h with h1 h2
  injection h with h
  subst h
  exact ⟨h2, rfl, _, rfl⟩

/-- Invariant of the tokenizing loop: `argc ≤ MAXARGS - 1`, and `argv` keeps its
`MAXARGS` slots. -/
theorem loop_states_bound : ∀ (fuel : Nat) (st : Tok),
    st.argc ≤ MAXARGS - 1 → st.argv.length = MAXARGS →
    ∀ s ∈ loop_states fuel st, s.argc ≤ MAXARGS - 1 ∧ s.argv.length = MAXARGS := by
  intro fuel
  induction fuel with
  | zero => intro st _ _ s hs; simp [loop_states] at hs
  | succ n ih =>
    intro st ha hl s hs
    simp only [loop_states] at hs
    cases ht : tok_step st with
    | inl r =>
      rw [ht] at hs
      simp only [List.mem_singleton] at hs
      subst hs
      exact ⟨ha, hl⟩
    | inr st1 =>
      rw [ht] at hs
      obtain ⟨hne, h1, p, hp⟩ := tok_step_inr st st1 ht
      rcases List.mem_cons.1 hs with rfl | hs1
      · exact ⟨ha, hl⟩
      · exact ih st1 (by omega) (by rw [hp, List.length_set]; exact hl) s hs1

theorem loop_writes_bound : ∀ (fuel : Nat) (st : Tok),
    st.argc ≤ MAXARGS - 1 → ∀ i ∈ loop_writes fuel st, i < MAXARGS - 1 := by
  intro fuel
  induction fuel with
  | zero => intro st _ i hi; simp [loop_writes] at hi
  | succ n ih =>
    intro st ha i hi
    simp only [loop_writes] at hi
    cases ht : tok_step st with
    | inl r =>
      rw [ht] at hi
      simp at hi
    | inr st1 =>
      rw [ht] at hi
      obtain ⟨hne, h1, _⟩ := tok_step_inr st st1 ht
      rcases List.mem_cons.1 hi with rfl | hi1
      · omega
      · exact ih st1 (by omega) i hi1

theorem tok_init_bound (env : Env) (buf : List Char) :
    (tok_init env buf).argc ≤ MAXARGS - 1 ∧ (tok_init env buf).argv.length = MAXARGS := by
  simp [tok_init, MAXARGS]

/-- Claim C20. For every line, each time the body of the tokenizing loop of
`runcmd` is entered `argc ≤ MAXARGS - 1 = 15` and `argv` has its 16 slots;
every write to `argv` (the initial `argv[0] = 0`, the writes `argv[argc++] = buf`
of the loop, the final `argv[argc] = 0`) is at an index below 16, those of the
loop even below 15; the loop is left with `argc ≤ 15`; and when it is left by
`break`, so that dispatch is reached, `argv[argc]` is null and `argv[0]`, ...,
`argv[argc - 1]` are not. -/
theorem argv_in_bounds (env : Env) (buf : List Char) :
    (∀ s ∈ loop_states (buf.length + 1) (tok_init env buf),
      s.argc ≤ MAXARGS - 1 ∧ s.argv.length = MAXARGS) ∧
    (∀ i ∈ loop_writes (buf.length + 1) (tok_init env buf), i < MAXARGS - 1) ∧
    (∀ i ∈ argv_writes env buf, i < MAXARGS) ∧
    (∀ st, tokenize env buf = some (Parse.too_many st) → st.argc = MAXARGS - 1) ∧
    (∀ st, tokenize env buf = some (Parse.done st) →
      st.argc ≤ MAXARGS - 1 ∧ st.argv.length = MAXARGS ∧ st.argv[st.argc]? = some none ∧
      ∀ i, i < st.argc → ∃ p, st.argv[i]? = some (some p)) := by
  have hi := tok_init_bound env buf
  refine ⟨loop_states_bound _ _ hi.1 hi.2, loop_writes_bound _ _ hi.1, ?_, ?_, ?_⟩
  · intro i hmem
    simp only [argv_writes, List.mem_cons, List.mem_append] at hmem
    rcases hmem with (rfl | hmem) | hmem
    · simp [MAXARGS]
    · have := loop_writes_bound _ _ hi.1 i hmem
      omega
    · cases ht : tokenize env buf with
      | none => simp [ht] at hmem
      | some r =>
        cases r with
        | too_many st => simp [ht] at hmem
        | done st =>
          simp only [ht, List.mem_singleton] at hmem
          subst hmem
          have := (tokenize_done_inv env buf st ht)
          simp only [MAXARGS]
          omega
  · intro st ht
    exact (tokenize_too_many_inv env buf st ht).2.1
  · intro st ht
    obtain ⟨hn, hargc, _, hlen, hnull, _⟩ := tokenize_done_inv env buf st ht
    refine ⟨by simp only [MAXARGS]; omega, hlen, hnull, ?_⟩
    intro i hlt
    obtain ⟨p, _, _, hp, _⟩ := argv_slices env buf st ht i hlt
    exact ⟨p, hp⟩

/-- On the sample line `ls_line` the loop is entered with `argc` 0, 1 and 2 and
`argv` is written at the indices 0, 0, 1 and 2; on the line of sixteen tokens
the loop stops at `argc = 15` and the highest index written is 14. -/
theorem argv_in_bounds_witness :
    ((∀ s ∈ loop_states (ls_line.length + 1) (tok_init sample_env ls_line),
      s.argc ≤ MAXARGS - 1 ∧ s.argv.length = MAXARGS) ∧
    (∀ i ∈ loop_writes (ls_line.length + 1) (tok_init sample_env ls_line), i < MAXARGS - 1) ∧
    (∀ i ∈ argv_writes sample_env ls_line, i < MAXARGS) ∧
    (∀ st, tokenize sample_env ls_line = some (Parse.too_many st) → st.argc = MAXARGS - 1) ∧
    (∀ st, tokenize sample_env ls_line = some (Parse.done st) →
      st.argc ≤ MAXARGS - 1 ∧ st.argv.length = MAXARGS ∧ st.argv[st.argc]? = some none ∧
      ∀ i, i < st.argc → ∃ p, st.argv[i]? = some (some p))) ∧
    tokenize sample_env ls_line = some (Parse.done ls_tok) ∧
    (loop_states (ls_line.length + 1) (tok_init sample_env ls_line)).map Tok.argc = [0, 1, 2] ∧
    argv_writes sample_env ls_line = [0, 0, 1, 2] ∧
    (loop_states (sixteen_tokens.length + 1) (tok_init sample_env sixteen_tokens)).map Tok.argc =
      [0, 1, 2, 3, 4, 5, 6, 7, 8, 9, 10, 11, 12, 13, 14, 15] ∧
    argv_writes sample_env sixteen_tokens =
      [0, 0, 1, 2, 3, 4, 5, 6, 7, 8, 9, 10, 11, 12, 13, 14] :=
  ⟨argv_in_bounds sample_env ls_line, by decide, by decide, by decide, by decide, by decide⟩

end Monitor
